import Mathlib

/-!
Verification of the audiobook-producer core: the story parser
(`parser.py`), the voice-assignment engine (`voices.py`) and the
pipeline-state manager (`artifacts.py`), shallowly embedded in Lean.

Python strings are modelled as `List Char` (the relevant inputs are
ASCII); file modification times are modelled as integers (only their
ordering matters); the file system seen by `artifacts.py` is modelled
explicitly as state records.
-/

/-! ## Python string primitives (ASCII fragment) -/

/-- Python whitespace test for the ASCII range (`str.strip`, regex class
matching of blanks). -/
def pyIsSpace (c : Char) : Bool :=
  c = ' ' || c = '\t' || c = '\n' || c = '\r' || c = '\x0b' || c = '\x0c'

/-- `str.lstrip()` with no arguments. -/
def pyLStrip (s : List Char) : List Char := s.dropWhile pyIsSpace

/-- `str.rstrip()` with no arguments. -/
def pyRStrip (s : List Char) : List Char := (s.reverse.dropWhile pyIsSpace).reverse

/-- `str.strip()` with no arguments. -/
def pyStrip (s : List Char) : List Char := pyRStrip (pyLStrip s)

/-- `str.rstrip(chars)`: drop from the right every character in `chars`. -/
def pyRStripSet (chars : List Char) (s : List Char) : List Char :=
  (s.reverse.dropWhile (fun c => chars.contains c)).reverse

/-- `str.lower()` on the ASCII range. -/
def lowerL (s : List Char) : List Char := s.map Char.toLower

/-- Case-insensitive character comparison, as regex `re.IGNORECASE` uses. -/
def eqCI (a b : Char) : Bool := a.toLower = b.toLower

/-! ## SHA-256 (`hashlib.sha256`), on byte lists, words as `Nat` mod `2^32` -/

/-- Addition of 32-bit words. -/
def add32 (a b : Nat) : Nat := (a + b) % 2 ^ 32

/-- Right rotation of a 32-bit word. -/
def rotr32 (n x : Nat) : Nat := (x / 2 ^ n + x % 2 ^ n * 2 ^ (32 - n)) % 2 ^ 32

/-- Logical right shift. -/
def shr32 (n x : Nat) : Nat := x / 2 ^ n

/-- The 64 SHA-256 round constants, written in decimal. -/
def sha256K : List Nat :=
  [1116352408, 1899447441, 3049323471, 3921009573, 961987163,
   1508970993, 2453635748, 2870763221, 3624381080, 310598401,
   607225278, 1426881987, 1925078388, 2162078206, 2614888103,
   3248222580, 3835390401, 4022224774, 264347078, 604807628,
   770255983, 1249150122, 1555081692, 1996064986, 2554220882,
   2821834349, 2952996808, 3210313671, 3336571891, 3584528711,
   113926993, 338241895, 666307205, 773529912, 1294757372,
   1396182291, 1695183700, 1986661051, 2177026350, 2456956037,
   2730485921, 2820302411, 3259730800, 3345764771, 3516065817,
   3600352804, 4094571909, 275423344, 430227734, 506948616,
   659060556, 883997877, 958139571, 1322822218, 1537002063,
   1747873779, 1955562222, 2024104815, 2227730452, 2361852424,
   2428436474, 2756734187, 3204031479, 3329325298]

/-- The SHA-256 initial hash value, written in decimal. -/
def sha256H0 : List Nat :=
  [1779033703, 3144134277, 1013904242, 2773480762, 1359893119,
   2600822924, 528734635, 1541459225]

/-- Small sigma 0. -/
def ssig0 (x : Nat) : Nat := (rotr32 7 x).xor ((rotr32 18 x).xor (shr32 3 x))

/-- Small sigma 1. -/
def ssig1 (x : Nat) : Nat := (rotr32 17 x).xor ((rotr32 19 x).xor (shr32 10 x))

/-- Big sigma 0. -/
def bsig0 (x : Nat) : Nat := (rotr32 2 x).xor ((rotr32 13 x).xor (rotr32 22 x))

/-- Big sigma 1. -/
def bsig1 (x : Nat) : Nat := (rotr32 6 x).xor ((rotr32 11 x).xor (rotr32 25 x))

/-- Choice function. -/
def sha256Ch (e f g : Nat) : Nat := (e.land f).xor ((e.xor (2 ^ 32 - 1)).land g)

/-- Majority function. -/
def sha256Maj (a b c : Nat) : Nat := ((a.land b).xor (a.land c)).xor (b.land c)

/-- Extend the 16 message-schedule words to 64. -/
def sha256Extend : Nat → List Nat → List Nat
  | 0, w => w
  | n + 1, w =>
    let t := w.length
    let next := add32 (add32 (ssig1 (w.getD (t - 2) 0)) (w.getD (t - 7) 0))
      (add32 (ssig0 (w.getD (t - 15) 0)) (w.getD (t - 16) 0))
    sha256Extend n (w ++ [next])

/-- One compression round; the state is the list `[a,b,c,d,e,f,g,h]`. -/
def sha256Round (st : List Nat) (kw : Nat × Nat) : List Nat :=
  let a := st.getD 0 0
  let b := st.getD 1 0
  let c := st.getD 2 0
  let d := st.getD 3 0
  let e := st.getD 4 0
  let f := st.getD 5 0
  let g := st.getD 6 0
  let h := st.getD 7 0
  let t1 := add32 (add32 (add32 h (bsig1 e)) (add32 (sha256Ch e f g) kw.1)) kw.2
  let t2 := add32 (bsig0 a) (sha256Maj a b c)
  [add32 t1 t2, a, b, c, add32 d t1, e, f, g]

/-- Assemble big-endian 32-bit words from groups of four bytes. -/
def bytesToWords : List Nat → List Nat
  | b0 :: b1 :: b2 :: b3 :: rest =>
    (((b0 * 256 + b1) * 256 + b2) * 256 + b3) :: bytesToWords rest
  | _ => []

/-- Process one 64-byte block against the running hash value. -/
def sha256Block (h : List Nat) (block : List Nat) : List Nat :=
  let w := sha256Extend 48 (bytesToWords block)
  let st := (sha256K.zip w).foldl sha256Round h
  (h.zip st).map fun p => add32 p.1 p.2

/-- Split the padded message into 64-byte blocks; the first argument is
recursion fuel (any value at least `bytes.length` suffices). -/
def chunk64 : Nat → List Nat → List (List Nat)
  | 0, _ => []
  | _ + 1, [] => []
  | fuel + 1, bytes => bytes.take 64 :: chunk64 fuel (bytes.drop 64)

/-- Big-endian byte decomposition, fixed width. -/
def natToBytesBE : Nat → Nat → List Nat
  | 0, _ => []
  | k + 1, n => natToBytesBE k (n / 256) ++ [n % 256]

/-- SHA-256 padding: `0x80`, zeros to 56 mod 64, 8-byte bit length. -/
def sha256Pad (msg : List Nat) : List Nat :=
  let padZeros := (64 + 55 - msg.length % 64) % 64
  msg ++ [0x80] ++ List.replicate padZeros 0 ++ natToBytesBE 8 (8 * msg.length)

/-- The SHA-256 digest of a byte list, as a list of 32 bytes. -/
def sha256Bytes (msg : List Nat) : List Nat :=
  let padded := sha256Pad msg
  let final := (chunk64 padded.length padded).foldl sha256Block sha256H0
  final.foldr (fun w acc => natToBytesBE 4 w ++ acc) []

/-- UTF-8 encoding of one character (Python `str.encode()`). -/
def utf8EncodeChar (c : Char) : List Nat :=
  let n := c.toNat
  if n < 0x80 then [n]
  else if n < 0x800 then [0xc0 + n / 0x40, 0x80 + n % 0x40]
  else if n < 0x10000 then
    [0xe0 + n / 0x1000, 0x80 + n / 0x40 % 0x40, 0x80 + n % 0x40]
  else
    [0xf0 + n / 0x40000, 0x80 + n / 0x1000 % 0x40, 0x80 + n / 0x40 % 0x40,
     0x80 + n % 0x40]

/-- UTF-8 encoding of a string. -/
def utf8Bytes (s : List Char) : List Nat := s.foldr (fun c acc => utf8EncodeChar c ++ acc) []

/-- `int(hashlib.sha256(b).hexdigest(), 16)`: the digest read as a
big-endian natural number. -/
def sha256Nat (msg : List Nat) : Nat :=
  (sha256Bytes msg).foldl (fun acc b => acc * 256 + b) 0

/-! ## Data model (`models.py`) -/

/-- `models.Segment`; the `type` field holds "narration" or "dialogue" and
`voice` defaults to the empty string, exactly as in the dataclass. -/
structure Segment where
  type : List Char
  text : List Char
  speaker : List Char
  voice : List Char := []
deriving DecidableEq, Repr

/-! ## Voice assignment (`voices.py`) -/

/-- `constants.NARRATOR_VOICE`. -/
def NARRATOR_VOICE : List Char := "en-US-RogerNeural".toList

/-- `constants.NARRATOR_DIALOGUE_VOICE`. -/
def NARRATOR_DIALOGUE_VOICE : List Char := "en-GB-RyanNeural".toList

/-- `voices.VOICE_POOL`. -/
def VOICE_POOL : List (List Char) :=
  ["en-US-AriaNeural".toList,
   "en-US-DavisNeural".toList,
   "en-US-TonyNeural".toList,
   "en-US-JennyNeural".toList,
   "en-US-SaraNeural".toList,
   "en-GB-SoniaNeural".toList,
   "en-GB-ThomasNeural".toList,
   "en-AU-NatashaNeural".toList,
   "en-AU-WilliamNeural".toList,
   "en-CA-ClaraNeural".toList,
   "en-CA-LiamNeural".toList,
   "en-IN-NeerjaNeural".toList,
   "en-IN-PrabhatNeural".toList,
   "en-IE-EmilyNeural".toList]

/-- One entry of the cast map `cast["cast"]`: primary name (the dict key),
optional pinned voice, optional description, alias list. Dict iteration
order is insertion order, modelled by the list order. -/
structure CastChar where
  name : List Char
  voice : Option (List Char) := none
  aliases : List (List Char) := []
deriving DecidableEq, Repr

/-- The cast map: character entries plus the `narrator` entry's optional
`voice` and `dialogue_voice`. -/
structure Cast where
  cast : List CastChar := []
  narratorVoice : Option (List Char) := none
  narratorDialogueVoice : Option (List Char) := none
deriving DecidableEq, Repr

/-- `voices._resolve_alias`: first cast entry whose alias list contains the
speaker (case-insensitively) wins; otherwise the speaker is returned
lowercased. -/
def resolveAlias (speaker : List Char) (cast : Cast) : List Char :=
  match cast.cast.find? (fun info => (info.aliases.map lowerL).contains (lowerL speaker)) with
  | some info => lowerL info.name
  | none => lowerL speaker

/-- `voices._hash_voice`: sha256 of the speaker, reduced modulo the pool
size, indexes the pool. -/
def hashVoice (speaker : List Char) (pool : List (List Char)) : List Char :=
  pool.getD (sha256Nat (utf8Bytes speaker) % pool.length) []

/-- The `used_voices` set built in `assign_voices` (membership is all that
is ever queried, so a list model is adequate): both narrator defaults, the
effective narrator voices, and every explicitly pinned cast voice. -/
def usedVoices (cast : Cast) : List (List Char) :=
  [NARRATOR_VOICE, NARRATOR_DIALOGUE_VOICE,
   cast.narratorVoice.getD NARRATOR_VOICE,
   cast.narratorDialogueVoice.getD NARRATOR_DIALOGUE_VOICE] ++
    cast.cast.filterMap (fun info => info.voice)

/-- The `available_pool` of `assign_voices`: the voice pool with used
voices removed, falling back to the full pool when that is empty. -/
def availablePool (cast : Cast) : List (List Char) :=
  let pool := VOICE_POOL.filter (fun v => !(usedVoices cast).contains v)
  if pool = [] then VOICE_POOL else pool

/-- The per-segment body of the `assign_voices` loop: narrator rules, then
alias resolution, then cast lookup (a pinned empty voice is falsy in
Python and falls through), then hash fallback. -/
def voiceFor (cast : Cast) (seg : Segment) : List Char :=
  let speaker := lowerL seg.speaker
  if speaker = "narrator".toList then
    if seg.type = "dialogue".toList then cast.narratorDialogueVoice.getD NARRATOR_DIALOGUE_VOICE
    else cast.narratorVoice.getD NARRATOR_VOICE
  else
    let resolved := resolveAlias speaker cast
    let castVoice :=
      match cast.cast.find? (fun info => lowerL info.name = resolved) with
      | some info => info.voice.getD []
      | none => []
    if castVoice ≠ [] then castVoice
    else hashVoice resolved (availablePool cast)

/-- `voices.assign_voices`: the in-place mutation is modelled as returning
the list with every segment's `voice` field set. -/
def assignVoices (segments : List Segment) (cast : Cast) : List Segment :=
  segments.map fun seg => { seg with voice := voiceFor cast seg }

/-! ## Bookend generation (`voices.generate_outro_segments`) -/

/-- Python `str.title()` on the ASCII range: the first letter after a
non-letter is uppercased, later letters lowercased. -/
def pyTitleGo : Bool → List Char → List Char
  | _, [] => []
  | prevAlpha, c :: rest =>
    if c.isAlpha then (if prevAlpha then c.toLower else c.toUpper) :: pyTitleGo true rest
    else c :: pyTitleGo false rest

/-- Python `str.title()`. -/
def pyTitle (s : List Char) : List Char := pyTitleGo false s

/-- `str.join` over a list of strings. -/
def joinSep (sep : List Char) : List (List Char) → List Char
  | [] => []
  | [x] => x
  | x :: rest => x ++ sep ++ joinSep sep rest

/-- The narrator-voice lookup at the top of `generate_outro_segments`:
first narrator narration segment with a non-empty voice, else the default. -/
def outroNarratorVoice (segments : List Segment) : List Char :=
  match segments.find? (fun seg =>
      seg.speaker = "narrator".toList && seg.type = "narration".toList && seg.voice ≠ []) with
  | some seg => seg.voice
  | none => NARRATOR_VOICE

/-- The `char_names` collection loop of `generate_outro_segments`:
first-appearance order, skipping narrator, unknown and repeats; names are
title-cased. -/
def collectCharNames : List (List Char) → List Segment → List (List Char)
  | _, [] => []
  | seen, seg :: rest =>
    let speaker := lowerL seg.speaker
    if speaker = "narrator".toList || speaker = "unknown".toList || seen.contains speaker then
      collectCharNames seen rest
    else pyTitle seg.speaker :: collectCharNames (speaker :: seen) rest

/-- Unique character names of a segment list, as the outro credits them. -/
def charNames (segments : List Segment) : List (List Char) := collectCharNames [] segments

/-- The `char_list` formatting in `generate_outro_segments`: one name
alone, two joined by " and ", three or more comma-separated with ", and "
before the last. -/
def charListL (names : List (List Char)) : List Char :=
  if names.length = 1 then names.getD 0 []
  else if names.length = 2 then names.getD 0 [] ++ " and ".toList ++ names.getD 1 []
  else joinSep ", ".toList names.dropLast ++ ", and ".toList ++ names.getLastD []

/-- `voices.generate_outro_segments`. -/
def generateOutroSegments (title author : List Char) (segments : List Segment) : List Segment :=
  let narratorVoice := outroNarratorVoice segments
  let credits : Segment :=
    ⟨"narration".toList,
     "This has been a production of ".toList ++ title ++ ", by ".toList ++ author ++ ",".toList,
     "narrator".toList, narratorVoice⟩
  let names := charNames segments
  let withSegs : List Segment :=
    if names = [] then []
    else [⟨"narration".toList, "with ".toList ++ charListL names ++ ".".toList,
          "narrator".toList, narratorVoice⟩]
  let thanks : Segment :=
    ⟨"narration".toList, "Thank you for listening.".toList, "narrator".toList, narratorVoice⟩
  [credits] ++ withSegs ++ [thanks]

/-- The character-listing conjunction as the specification words it:
comma-separated with "and" before the last, or "X and Y" for exactly two,
or just the name for one. -/
def specCharConjunction : List (List Char) → List Char
  | [] => []
  | [x] => x
  | [x, y] => x ++ " and ".toList ++ y
  | names => joinSep ", ".toList names.dropLast ++ ", and ".toList ++ names.getLastD []

/-! ## Pipeline state management (`artifacts.py`) -/

/-- `artifacts.INVALIDATION_MAP`: setting key to list of subdirectories. -/
def INVALIDATION_MAP : List (String × List String) :=
  [("voice", ["voice_demos", "segments", "samples", "final"]),
   ("narrator-voice", ["voice_demos", "segments", "samples", "final"]),
   ("narrator-dialogue", ["voice_demos", "segments", "samples", "final"]),
   ("music", ["music", "samples", "final"]),
   ("music-file", ["samples", "final"]),
   ("music-db", ["samples", "final"]),
   ("reverb", ["segments", "samples", "final"]),
   ("reverb-room", ["segments", "samples", "final"]),
   ("reverb-wet", ["segments", "samples", "final"])]

/-- The project directory as `invalidate_downstream` sees it: for each
subdirectory name, `none` when the directory is missing and `some files`
when it exists with the given contents. -/
abbrev ProjState := String → Option (List String)

/-- The body of the `invalidate_downstream` loop: an existing directory is
removed and recreated empty (`shutil.rmtree` then `os.makedirs`) and its
name reported; a missing one is skipped. -/
def invGo (st : ProjState) : List String → ProjState × List String
  | [] => (st, [])
  | d :: rest =>
    match st d with
    | some _ =>
      let st2 : ProjState := fun x => if x = d then some [] else st x
      let r := invGo st2 rest
      (r.1, d :: r.2)
    | none => invGo st rest

/-- `artifacts.invalidate_downstream`: returns the new project state and
the list of deleted subdirectory names. -/
def invalidateDownstream (st : ProjState) (settingKey : String) : ProjState × List String :=
  let dirs := ((INVALIDATION_MAP.find? fun p => p.1 = settingKey).map Prod.snd).getD []
  invGo st dirs

/-- One pipeline-stage output as `check_step_fresh` probes it: missing, a
file with a modification time, or a directory with its member
modification times (`os.listdir` plus `os.path.getmtime`); times are
modelled as integers since only their order matters. -/
inductive OutputState where
  | missing
  | file (mtime : Int)
  | dir (members : List Int)
deriving DecidableEq, Repr

/-- The seven fixed output locations of `check_step_fresh`'s `output_map`,
one per stage name. -/
structure PipelineFS where
  parse : OutputState
  voices : OutputState
  tts : OutputState
  effects : OutputState
  music : OutputState
  assembly : OutputState
  exportStep : OutputState
deriving DecidableEq, Repr

/-- `output_map.get(step_name)`: the probed artifact for a stage name,
`none` for unknown names. -/
def outputFor (fs : PipelineFS) (step : String) : Option OutputState :=
  if step = "parse" then some fs.parse
  else if step = "voices" then some fs.voices
  else if step = "tts" then some fs.tts
  else if step = "effects" then some fs.effects
  else if step = "music" then some fs.music
  else if step = "assembly" then some fs.assembly
  else if step = "export" then some fs.exportStep
  else none

/-- The input-timestamp loop at the end of `check_step_fresh`: with no
inputs the answer is immediately true; otherwise every existing input
(`none` models a missing path, which is skipped) must not be strictly
newer than the output time. -/
def freshAgainst (outM : Int) (inputs : List (Option Int)) : Bool :=
  if inputs = [] then true
  else inputs.all fun i =>
    match i with
    | none => true
    | some t => decide (t ≤ outM)

/-- `artifacts.check_step_fresh`. -/
def checkStepFresh (fs : PipelineFS) (stepName : String) (inputs : List (Option Int)) : Bool :=
  match outputFor fs stepName with
  | none => false
  | some OutputState.missing => false
  | some (OutputState.file m) => freshAgainst m inputs
  | some (OutputState.dir mems) =>
    match mems with
    | [] => false
    | x :: xs => freshAgainst (xs.foldl max x) inputs

/-- The stage names `check_step_fresh` knows. -/
def knownSteps : List String :=
  ["parse", "voices", "tts", "effects", "music", "assembly", "export"]

/-- The claim-side freshness condition, written from the specification
words: the output artifact exists (a directory must be non-empty), and
every supplied input timestamp is not strictly newer than the output
time, a directory output using its newest member time. -/
def specFreshTime (o : OutputState) : Option Int :=
  match o with
  | OutputState.missing => none
  | OutputState.file m => some m
  | OutputState.dir [] => none
  | OutputState.dir (x :: xs) => some (xs.foldl max x)

/-- Claim-side freshness for a stage. -/
def SpecFresh (fs : PipelineFS) (stepName : String) (inputs : List (Option Int)) : Prop :=
  ∃ o m, outputFor fs stepName = some o ∧ specFreshTime o = some m ∧
    ∀ t : Int, some t ∈ inputs → t ≤ m

/-- The project state that `get_project_status` inspects: segment count of
`script.json` when present, character count of `cast.json` when present,
contents of `segments/` and `final/` when present, and existence flags for
the single-file artifacts. -/
structure StatusFS where
  script : Option Nat
  castChars : Option Nat
  segmentsDir : Option (List String)
  effectsPresent : Bool
  musicPresent : Bool
  previewPresent : Bool
  finalDir : Option (List String)
deriving DecidableEq, Repr

/-- One stage entry of the status dictionary; unused count fields stay
`none`. -/
structure StageReport where
  state : String
  segments : Option Nat := none
  voices : Option Nat := none
  files : Option Nat := none
  expected : Option Nat := none
deriving DecidableEq, Repr

/-- The full status dictionary. -/
structure ProjectStatus where
  parse : StageReport
  voices : StageReport
  tts : StageReport
  effects : StageReport
  music : StageReport
  assembly : StageReport
  exportStep : StageReport
deriving DecidableEq, Repr

/-- Suffix test used for the `.mp3` filters (`str.endswith`). -/
def hasSuffixL (s suf : List Char) : Bool := s.reverse.take suf.length = suf.reverse

/-- `artifacts.get_project_status`. -/
def getProjectStatus (fs : StatusFS) : ProjectStatus :=
  let parseRep : StageReport :=
    match fs.script with
    | some n => { state := "done", segments := some n }
    | none => { state := "pending" }
  let voicesRep : StageReport :=
    match fs.castChars with
    | some n => { state := "done", voices := some (n + 1) }
    | none => { state := "pending" }
  let ttsRep : StageReport :=
    match fs.segmentsDir with
    | some files =>
      let mp3s := files.filter fun f => hasSuffixL f.toList ".mp3".toList
      if mp3s = [] then { state := "pending" }
      else
        let expected := fs.script.getD 0
        if expected ≠ 0 ∧ mp3s.length ≥ expected then
          { state := "done", files := some mp3s.length }
        else
          { state := "partial", files := some mp3s.length, expected := some expected }
    | none => { state := "pending" }
  let exportRep : StageReport :=
    match fs.finalDir with
    | some files =>
      if files.filter (fun f => hasSuffixL f.toList ".mp3".toList) = [] then { state := "pending" }
      else { state := "done" }
    | none => { state := "pending" }
  { parse := parseRep
    voices := voicesRep
    tts := ttsRep
    effects := { state := if fs.effectsPresent then "done" else "pending" }
    music := { state := if fs.musicPresent then "done" else "pending" }
    assembly := { state := if fs.previewPresent then "done" else "pending" }
    exportStep := exportRep }

/-! ## Story parsing (`parser.py`): regex machinery

The four compiled patterns of `parser.py` are hand-translated into
deterministic matchers. Determinism is justified pattern by pattern: the
character classes adjacent to each greedy or optional piece are disjoint,
and no speech verb is a prefix of another, so the backtracking engine has
at most one viable path; lazy groups take the shortest expansion whose
continuation matches, which the translations search in ascending order. -/

/-- `parser.SPEECH_VERBS`, in source order. -/
def SPEECH_VERBS : List (List Char) :=
  ["said".toList, "asked".toList, "replied".toList, "cried".toList,
   "whispered".toList, "exclaimed".toList, "shouted".toList,
   "murmured".toList, "muttered".toList, "screamed".toList,
   "shrieked".toList, "called".toList, "answered".toList,
   "demanded".toList, "insisted".toList, "suggested".toList,
   "pleaded".toList, "begged".toList, "groaned".toList, "moaned".toList,
   "sighed".toList, "gasped".toList, "laughed".toList, "sobbed".toList,
   "wept".toList, "hissed".toList, "snapped".toList, "growled".toList,
   "roared".toList, "yelled".toList, "bellowed".toList,
   "announced".toList, "declared".toList, "remarked".toList,
   "observed".toList, "noted".toList, "commented".toList,
   "added".toList, "continued".toList, "went on".toList,
   "pursued".toList, "admitted".toList, "confessed".toList,
   "acknowledged".toList, "agreed".toList, "conceded".toList,
   "protested".toList, "objected".toList, "interrupted".toList,
   "interjected".toList, "urged".toList, "warned".toList,
   "cautioned".toList, "promised".toList, "vowed".toList,
   "swore".toList, "stammered".toList, "stuttered".toList,
   "babbled".toList, "blurted".toList, "chanted".toList,
   "recited".toList, "sang".toList]

/-- regex word-character class (ASCII fragment). -/
def isWordCh (c : Char) : Bool := c.isAlphanum || c = '_'

/-- The speaker-group inner class of the attribution patterns. -/
def isSpeakerCh (c : Char) : Bool := isWordCh c || pyIsSpace c || c = '.'

/-- The trailing punctuation class of the post-attribution patterns. -/
def postPunctChars : List Char := [',', ';', '.', '-', '—', '!', '?']

/-- The regex anchor at end of pattern without MULTILINE: end of string,
or just before one final newline. -/
def atDollar (s : List Char) : Bool := s = [] || s = ['\n']

/-- Greedy whitespace run: length consumed and remainder. -/
def spanSpaces (s : List Char) : Nat × List Char :=
  ((s.takeWhile pyIsSpace).length, s.dropWhile pyIsSpace)

/-- An optional single character from a class. -/
def optClass (chars : List Char) : List Char → Nat × List Char
  | [] => (0, [])
  | c :: rest => if chars.contains c then (1, rest) else (0, c :: rest)

/-- Case-insensitive literal match at the head of a string. -/
def isPrefixCI : List Char → List Char → Bool
  | [], _ => true
  | _ :: _, [] => false
  | v :: vs, c :: cs => eqCI v c && isPrefixCI vs cs

/-- The speech-verb alternation, case-insensitive, alternatives in source
order; no verb is a prefix of another, so the first hit is the only hit. -/
def matchVerb (s : List Char) : Option (Nat × List Char) :=
  match SPEECH_VERBS.find? (fun v => isPrefixCI v s) with
  | some v => some (v.length, s.drop v.length)
  | none => none

/-- A quoted span: opening quote, one or more non-quote characters,
closing quote. Returns the span content and the remainder. -/
def matchQuote : List Char → Option (List Char × List Char)
  | '"' :: rest =>
    let content := rest.takeWhile (fun c => c ≠ '"')
    if content = [] then none
    else
      match rest.drop content.length with
      | '"' :: rest2 => some (content, rest2)
      | _ => none
  | _ => none

/-- The trailing group of the post-attribution patterns: whitespace then a
closing punctuation mark, or the end anchor consuming nothing. -/
def matchAttrTail (s : List Char) : Option (Nat × List Char) :=
  let sp := (s.takeWhile pyIsSpace).length
  match s.drop sp with
  | c :: rest =>
    if postPunctChars.contains c then some (sp + 1, rest)
    else if atDollar s then some (0, s) else none
  | [] => if atDollar s then some (0, s) else none

/-- One raw regex match: character offsets of its span plus the two
captured groups (the second may be unused). -/
structure RawMatch where
  start : Nat
  stop : Nat
  g1 : List Char
  g2 : List Char
deriving DecidableEq, Repr

/-- The lazy speaker group of the general post-attribution branch: extend
through the speaker class one character at a time, stopping at the first
point where the trailing group matches. Returns the extension, and the
trailing-group length. -/
def lazyExtend : List Char → Option (List Char × Nat)
  | [] =>
    match matchAttrTail [] with
    | some (tn, _) => some ([], tn)
    | none => none
  | c :: rest =>
    match matchAttrTail (c :: rest) with
    | some (tn, _) => some ([], tn)
    | none =>
      if isSpeakerCh c then
        match lazyExtend rest with
        | some (g, tn) => some (c :: g, tn)
        | none => none
      else none

/-- The first-person post-attribution pattern: quote, optional comma or
period amid whitespace, the literal first-person pronoun, whitespace, a
speech verb, and the trailing group. Returns total length, the quote and
the pronoun as matched. -/
def matchFPPAt (s : List Char) : Option (Nat × List Char × List Char) :=
  match matchQuote s with
  | none => none
  | some (q, s1) =>
    let qlen := q.length + 2
    let (a, s2) := spanSpaces s1
    let (b, s3) := optClass [',', '.'] s2
    let (c, s4) := spanSpaces s3
    match s4 with
    | i :: s5 =>
      if i.toLower = 'i' then
        let (d, s6) := spanSpaces s5
        if d = 0 then none
        else
          match matchVerb s6 with
          | some (vn, s7) =>
            match matchAttrTail s7 with
            | some (tn, _) => some (qlen + a + b + c + 1 + d + vn + tn, q, [i])
            | none => none
          | none => none
      else none
    | [] => none

/-- The general post-attribution pattern: quote, optional comma or period
amid whitespace, a speech verb, whitespace, then the speaker group — the
single-letter first-person branch first, then a letter followed by the
lazy speaker-class extension — and the trailing group. -/
def matchPostAt (s : List Char) : Option (Nat × List Char × List Char) :=
  match matchQuote s with
  | none => none
  | some (q, s1) =>
    let qlen := q.length + 2
    let (a, s2) := spanSpaces s1
    let (b, s3) := optClass [',', '.'] s2
    let (c, s4) := spanSpaces s3
    match matchVerb s4 with
    | none => none
    | some (vn, s5) =>
      let (d, s6) := spanSpaces s5
      if d = 0 then none
      else
        match s6 with
        | c0 :: s7 =>
          let general : Option (Nat × List Char × List Char) :=
            if c0.isAlpha then
              match lazyExtend s7 with
              | some (g, tn) =>
                some (qlen + a + b + c + vn + d + 1 + g.length + tn, q, c0 :: g)
              | none => none
            else none
          if c0.toLower = 'i' then
            match matchAttrTail s7 with
            | some (tn, _) => some (qlen + a + b + c + vn + d + 1 + tn, q, [c0])
            | none => general
          else general
        | [] => none

/-- The optional dash group of the pre-attribution pattern: a double
hyphen, an em-dash, or nothing. -/
def matchDashes : List Char → Nat × List Char
  | '-' :: '-' :: rest => (2, rest)
  | '—' :: rest => (1, rest)
  | s => (0, s)

/-- The tail of the pre-attribution pattern after the intervening words:
whitespace, optional comma or colon, whitespace, optional dashes,
whitespace, then a quoted span. Returns length, quote content, remainder. -/
def preTail (s : List Char) : Option (Nat × List Char × List Char) :=
  let (a, s1) := spanSpaces s
  let (b, s2) := optClass [',', ':'] s1
  let (c, s3) := spanSpaces s2
  let (d, s4) := matchDashes s3
  let (e, s5) := spanSpaces s4
  match matchQuote s5 with
  | some (q, s6) => some (a + b + c + d + e + q.length + 2, q, s6)
  | none => none

/-- One intervening word of the pre-attribution pattern: whitespace then a
word-character run, both maximal (the neighbouring classes are disjoint). -/
def repOnce (s : List Char) : Option (Nat × List Char) :=
  let (a, s1) := spanSpaces s
  if a = 0 then none
  else
    let w := s1.takeWhile isWordCh
    if w = [] then none else some (a + w.length, s1.drop w.length)

/-- Up to `m` intervening words, greedily, backtracking to fewer words
when the tail fails afterwards. -/
def repsFrom (m : Nat) (s : List Char) : Option (Nat × List Char × List Char) :=
  match m with
  | 0 => preTail s
  | k + 1 =>
    match repOnce s with
    | some (n, s1) =>
      match repsFrom k s1 with
      | some (l, q, r) => some (n + l, q, r)
      | none => preTail s
    | none => preTail s

/-- The continuation of the pre-attribution pattern after the speaker
group: mandatory whitespace, a speech verb, then at most three
intervening words and the tail. -/
def preAfterGroup (s : List Char) : Option (Nat × List Char × List Char) :=
  let (a, s1) := spanSpaces s
  if a = 0 then none
  else
    match matchVerb s1 with
    | none => none
    | some (vn, s2) =>
      match repsFrom 3 s2 with
      | some (l, q, r) => some (a + vn + l, q, r)
      | none => none

/-- The lazy leading speaker group of the pre-attribution pattern: extend
through the speaker class, shortest continuation-matching expansion
first. Returns the group (reversed accumulator resolved), continuation
length and quote. -/
def preLazy (grpRev : List Char) : List Char → Option (List Char × Nat × List Char)
  | [] =>
    match preAfterGroup [] with
    | some (l, q, _) => some (grpRev.reverse, l, q)
    | none => none
  | c :: rest =>
    match preAfterGroup (c :: rest) with
    | some (l, q, _) => some (grpRev.reverse, l, q)
    | none =>
      if isSpeakerCh c then preLazy (c :: grpRev) rest
      else none

/-- The pre-attribution pattern: a word character opening the lazy speaker
group, the continuation as above. Group 1 is the speaker, group 2 the
quote. -/
def matchPreAt (s : List Char) : Option (Nat × List Char × List Char) :=
  match s with
  | c0 :: rest =>
    if isWordCh c0 then
      match preLazy [c0] rest with
      | some (grp, l, q) => some (grp.length + l, grp, q)
      | none => none
    else none
  | [] => none

/-- The standalone-dialogue pattern: just a quoted span. -/
def matchDialogueAt (s : List Char) : Option (Nat × List Char × List Char) :=
  match matchQuote s with
  | some (q, _) => some (q.length + 2, q, [])
  | none => none

/-- `re.finditer`: scan left to right, yielding non-overlapping matches,
resuming after each match and advancing one position after a failure.
The fuel argument only needs to exceed the suffix length. -/
def finditer (matchAt : List Char → Option (Nat × List Char × List Char)) :
    Nat → Nat → List Char → List RawMatch
  | 0, _, _ => []
  | _ + 1, _, [] => []
  | fuel + 1, pos, c :: rest =>
    match matchAt (c :: rest) with
    | some (len, g1, g2) =>
      ⟨pos, pos + len, g1, g2⟩ :: finditer matchAt fuel (pos + len) ((c :: rest).drop len)
    | none => finditer matchAt fuel (pos + 1) rest

/-! ## Story parsing (`parser.py`): segment extraction -/

/-- `constants.SEGMENT_SPLIT_THRESHOLD`. -/
def SEGMENT_SPLIT_THRESHOLD : Nat := 500

/-- `parser._normalize_speaker`: strip, strip trailing punctuation, strip
again; first-person pronouns become the narrator; lowercase. -/
def normalizeSpeaker (name : List Char) : List Char :=
  let n := pyStrip (pyRStripSet ".,;:!?—-".toList (pyStrip name))
  if lowerL n = "i".toList || lowerL n = "we".toList then "narrator".toList
  else lowerL n

/-- Does the previous character end a sentence? -/
def isSentEnd : Option Char → Bool
  | some p => p = '.' || p = '!' || p = '?'
  | none => false

/-- The sentence-boundary split of `_split_long_segment`: a whitespace run
preceded by sentence-ending punctuation separates fragments and is
consumed whole. The first argument tells whether we are inside such a
run; the accumulator holds the current fragment reversed. -/
def sentSplitGo : Bool → Option Char → List Char → List Char → List (List Char)
  | _, _, acc, [] => [acc.reverse]
  | true, _, acc, c :: rest =>
    if pyIsSpace c then sentSplitGo true none acc rest
    else sentSplitGo false (some c) (c :: acc) rest
  | false, prev, acc, c :: rest =>
    if pyIsSpace c && isSentEnd prev then acc.reverse :: sentSplitGo true none [] rest
    else sentSplitGo false (some c) (c :: acc) rest

/-- Sentence fragments of a text. -/
def sentenceSplit (s : List Char) : List (List Char) := sentSplitGo false none [] s

/-- The chunk-building loop of `_split_long_segment`: pack sentences while
they fit, flush the stripped chunk when the next sentence would overflow,
and flush a final non-whitespace remainder. -/
def chunkGo (thr : Nat) (current : List Char) (chunks : List (List Char)) :
    List (List Char) → List (List Char)
  | [] => if pyStrip current ≠ [] then chunks ++ [pyStrip current] else chunks
  | sent :: rest =>
    if current ≠ [] && current.length + sent.length + 1 > thr then
      chunkGo thr sent (chunks ++ [pyStrip current]) rest
    else
      chunkGo thr (if current ≠ [] then pyStrip (current ++ ' ' :: sent) else sent) chunks rest

/-- `parser._split_long_segment`. -/
def splitLongSegment (text : List Char) (thr : Nat := SEGMENT_SPLIT_THRESHOLD) :
    List (List Char) :=
  if text.length ≤ thr then [text]
  else
    let chunks := chunkGo thr [] [] (sentenceSplit text)
    if chunks = [] then [text] else chunks

/-- One accepted dialogue range of `_extract_from_paragraph`: span
offsets, stripped quote text, normalized speaker. -/
structure DRange where
  start : Nat
  stop : Nat
  quote : List Char
  speaker : List Char
deriving DecidableEq, Repr

/-- The overlap test of `_extract_from_paragraph`: a candidate span
overlaps an accepted one unless it lies entirely before or after it. -/
def overlapsAny (ranges : List DRange) (s e : Nat) : Bool :=
  ranges.any fun r => !(decide (e ≤ r.start) || decide (s ≥ r.stop))

/-- The first-person pass: strip the quote, normalize the pronoun, keep
non-empty quotes (no overlap check, this pass runs first). -/
def addFPP (ranges : List DRange) (m : RawMatch) : List DRange :=
  let quote := pyStrip m.g1
  let speaker := normalizeSpeaker m.g2
  if quote ≠ [] then ranges ++ [⟨m.start, m.stop, quote, speaker⟩] else ranges

/-- The post- and pre-attribution passes: keep non-empty quotes whose span
does not overlap an already accepted range. `quoteFirst` selects which
group carries the quote (group 1 for post-attribution, group 2 for
pre-attribution). -/
def addChecked (quoteFirst : Bool) (ranges : List DRange) (m : RawMatch) : List DRange :=
  let quote := pyStrip (if quoteFirst then m.g1 else m.g2)
  let speaker := normalizeSpeaker (if quoteFirst then m.g2 else m.g1)
  if quote ≠ [] then
    if overlapsAny ranges m.start m.stop then ranges
    else ranges ++ [⟨m.start, m.stop, quote, speaker⟩]
  else ranges

/-- The standalone-dialogue fallback pass: non-empty quotes become ranges
with the reserved speaker "unknown". -/
def addUnknown (ranges : List DRange) (m : RawMatch) : List DRange :=
  let quote := pyStrip m.g1
  if quote ≠ [] then ranges ++ [⟨m.start, m.stop, quote, "unknown".toList⟩] else ranges

/-- Stable insertion by start offset (Python `list.sort` is stable). -/
def insertByStart (r : DRange) : List DRange → List DRange
  | [] => [r]
  | x :: xs => if x.start ≤ r.start then x :: insertByStart r xs else r :: x :: xs

/-- Stable sort of the accepted ranges by start offset. -/
def sortByStart (l : List DRange) : List DRange := l.foldl (fun acc r => insertByStart r acc) []

/-- Narration chunks for a piece of text. -/
def emitNarration (text : List Char) : List Segment :=
  (splitLongSegment text).map fun chunk => ⟨"narration".toList, chunk, "narrator".toList, []⟩

/-- The trailing-attribution cleanup pattern applied to the narration
before a dialogue range: whitespace, a speech verb, whitespace, optional
comma or colon, whitespace, optional dashes, whitespace, end anchor.
Returns the end-anchor remainder on a match. -/
def trailAttrAt (s : List Char) : Option (List Char) :=
  let s1 := s.dropWhile pyIsSpace
  match matchVerb s1 with
  | none => none
  | some (_, s2) =>
    let s3 := s2.dropWhile pyIsSpace
    let (_, s4) := optClass [',', ':'] s3
    let s5 := s4.dropWhile pyIsSpace
    let (_, s6) := matchDashes s5
    let s7 := s6.dropWhile pyIsSpace
    if atDollar s7 then some s7 else none

/-- The `re.sub` removing a trailing attribution fragment: the leftmost
match runs to the end anchor, so everything from its start is replaced by
the anchor remainder. -/
def subTrailAttr : List Char → List Char
  | [] => []
  | c :: rest =>
    match trailAttrAt (c :: rest) with
    | some tail => tail
    | none => c :: subTrailAttr rest

/-- The `re.sub` removing a leading attribution fragment from the
narration after a dialogue range: anchored at the start; whitespace, a
speech verb, mandatory whitespace, one word character, a lazy group that
always matches empty (everything after it is optional), a punctuation
run, a whitespace run. On failure the text is unchanged. -/
def subLeadAttr (s : List Char) : List Char :=
  let s1 := s.dropWhile pyIsSpace
  match matchVerb s1 with
  | none => s
  | some (_, s2) =>
    let sp := (s2.takeWhile pyIsSpace).length
    if sp = 0 then s
    else
      match s2.drop sp with
      | c :: s4 =>
        if isWordCh c then
          (s4.dropWhile fun x => [',', ';', '.', '!', '?', '—', '-'].contains x).dropWhile pyIsSpace
        else s
      | [] => s

/-- The extraction loop of `_extract_from_paragraph` over the sorted
ranges: narration between dialogue runs is stripped of attribution
remnants and emitted, the quote chunks are emitted as dialogue, and the
text after the last range is cleaned and emitted. -/
def extractLoop (text : List Char) : Nat → List DRange → List Segment
  | pos, [] =>
    let post := pyStrip (text.drop pos)
    if post ≠ [] then
      let cleaned := pyStrip (subLeadAttr post)
      if cleaned ≠ [] then emitNarration cleaned else []
    else []
  | pos, r :: rest =>
    let beforeRaw := pyStrip ((text.take r.start).drop pos)
    let before1 := pyStrip (subTrailAttr beforeRaw)
    let before := pyStrip (pyRStripSet ".,;:!?—- ".toList before1)
    (if before ≠ [] then emitNarration before else []) ++
      ((splitLongSegment r.quote).map fun chunk =>
        ⟨"dialogue".toList, chunk, r.speaker, []⟩) ++
      extractLoop text r.stop rest

/-- `parser._extract_from_paragraph`: the four prioritized passes build
the accepted ranges, then narration and dialogue are emitted in order. -/
def extractFromParagraph (paragraph : List Char) : List Segment :=
  let text := pyStrip paragraph
  if text = [] then []
  else
    let fuel := text.length + 1
    let r1 := (finditer matchFPPAt fuel 0 text).foldl addFPP []
    let r2 := (finditer matchPostAt fuel 0 text).foldl (addChecked true) r1
    let r3 := (finditer matchPreAt fuel 0 text).foldl (addChecked false) r2
    let ranges :=
      if r3 = [] then (finditer matchDialogueAt fuel 0 text).foldl addUnknown [] else r3
    if ranges = [] then emitNarration text
    else extractLoop text 0 (sortByStart ranges)

/-! ## Story parsing (`parser.py`): header stripping and metadata -/

/-- The paragraph split on blank-line boundaries: a newline, a greedy
whitespace run, and a final newline (the last one in the run, by greedy
backtracking) form a separator; whitespace after that last newline
belongs to the next paragraph. The mode argument holds the reversed
pending whitespace run after a newline that may yet become a separator. -/
def parasGo (mode : Option (List Char)) (acc : List Char) : List Char → List (List Char)
  | [] =>
    match mode with
    | none => [acc.reverse]
    | some pend =>
      let p := pend.reverse
      if (p.drop 1).contains '\n' then
        let leftover := (p.reverse.takeWhile fun x => x ≠ '\n').reverse
        [acc.reverse, leftover]
      else [acc.reverse ++ p]
  | c :: rest =>
    match mode with
    | none =>
      if c = '\n' then parasGo (some ['\n']) acc rest
      else parasGo none (c :: acc) rest
    | some pend =>
      if pyIsSpace c then parasGo (some (c :: pend)) acc rest
      else
        let p := pend.reverse
        if (p.drop 1).contains '\n' then
          let leftover := (p.reverse.takeWhile fun x => x ≠ '\n').reverse
          acc.reverse :: parasGo none (c :: leftover.reverse) rest
        else parasGo none (c :: (pend ++ acc)) rest

/-- Split a text into paragraphs on blank-line separators. -/
def splitParagraphs (s : List Char) : List (List Char) := parasGo none [] s

/-- Split a text into lines (Python `str.split` on a newline). -/
def linesGo (acc : List Char) : List Char → List (List Char)
  | [] => [acc.reverse]
  | c :: rest => if c = '\n' then acc.reverse :: linesGo [] rest else linesGo (c :: acc) rest

/-- Lines of a text. -/
def linesOf (s : List Char) : List (List Char) := linesGo [] s

/-- The header-stripper line test: the word "by" (case-insensitive)
followed by at least one whitespace character. -/
def isByLine (l : List Char) : Bool :=
  match l with
  | b :: y :: c :: _ => eqCI b 'b' && eqCI y 'y' && pyIsSpace c
  | _ => false

/-- The author pattern of `extract_metadata` applied to an already
stripped, newline-free line: "by", mandatory whitespace, and a non-empty
remainder captured as the author (when the remainder after the maximal
whitespace run is empty, the pattern backtracks and captures the last
whitespace character instead, which requires a run of at least two). -/
def byAuthor (l : List Char) : Option (List Char) :=
  match l with
  | b :: y :: rest =>
    if eqCI b 'b' && eqCI y 'y' then
      let sp := (rest.takeWhile pyIsSpace).length
      let rem := rest.drop sp
      if sp = 0 then none
      else if rem ≠ [] then some rem
      else if 2 ≤ sp then some [(rest.take sp).getLastD ' ']
      else none
    else none
  | _ => none

/-- `parser.extract_metadata`: the author comes from the first line
matching the "by" pattern; only when one exists does the first non-empty
line become the title; otherwise both fall back to fixed sentinels. -/
def extractMetadata (text : List Char) : List Char × List Char :=
  let lines := linesOf (pyStrip text)
  match lines.findSome? (fun line => byAuthor (pyStrip line)) with
  | some a =>
    let nonEmpty := (lines.map pyStrip).filter (· ≠ [])
    (nonEmpty.headD "Untitled".toList, pyStrip a)
  | none => ("Untitled".toList, "Unknown Author".toList)

/-- The per-paragraph metadata test of `_strip_metadata_header`: every
line is blank, is a "by" line, or (for the first paragraph only, when it
has at most two lines) is accepted unconditionally. -/
def isMetaPara (i : Nat) (lines : List (List Char)) : Bool :=
  lines.all fun line =>
    let l := pyStrip line
    l = [] || isByLine l || (decide (i = 0) && decide (lines.length ≤ 2))

/-- The index-accumulating loop of `_strip_metadata_header`: blank
paragraphs are skipped, metadata paragraphs advance the start index past
themselves, and the first other paragraph stops the scan. -/
def headerIdxGo (i startIdx : Nat) : List (List Char) → Nat
  | [] => startIdx
  | p :: rest =>
    let s := pyStrip p
    if s = [] then headerIdxGo (i + 1) startIdx rest
    else if isMetaPara i (linesOf s) then headerIdxGo (i + 1) (i + 1) rest
    else startIdx

/-- `parser._strip_metadata_header`. -/
def stripMetadataHeader (text : List Char) : List Char :=
  let paras := splitParagraphs (pyStrip text)
  joinSep "\n\n".toList (paras.drop (headerIdxGo 0 0 paras))

/-- `parser.parse_story`: strip the header, split into paragraphs,
extract segments from each non-blank paragraph. -/
def parseStory (text : List Char) : List Segment :=
  ((splitParagraphs (stripMetadataHeader text)).map fun para =>
    let p := pyStrip para
    if p = [] then [] else extractFromParagraph p).flatten

/-! ## Claim-side definitions and concrete instances -/

/-- The ordinary (non-narrator) voice path of `assign_voices`: alias
resolution, cast lookup, hash fallback. -/
def nonNarratorVoice (cast : Cast) (speaker : List Char) : List Char :=
  let resolved := resolveAlias speaker cast
  let castVoice :=
    match cast.cast.find? (fun info => lowerL info.name = resolved) with
    | some info => info.voice.getD []
    | none => []
  if castVoice ≠ [] then castVoice
  else hashVoice resolved (availablePool cast)

/-- The hash-fallback pool as the specification words it: the fixed pool
minus the narrator narration and dialogue voices and minus every voice
explicitly pinned to a cast character, the full pool when that would be
empty. -/
def specAvailablePool (cast : Cast) : List (List Char) :=
  let reduced := VOICE_POOL.filter fun v =>
    !(v = cast.narratorVoice.getD NARRATOR_VOICE ||
      v = cast.narratorDialogueVoice.getD NARRATOR_DIALOGUE_VOICE ||
      (cast.cast.filterMap (fun info => info.voice)).contains v)
  if reduced = [] then VOICE_POOL else reduced

/-- Number of produced `.mp3` files the tts status inspects. -/
def ttsProducedCount (fs : StatusFS) : Nat :=
  match fs.segmentsDir with
  | none => 0
  | some files => (files.filter fun f => hasSuffixL f.toList ".mp3".toList).length

/-- The expected tts file count derived from the parse stage. -/
def ttsExpectedCount (fs : StatusFS) : Nat := fs.script.getD 0

/-- Concrete scenario A input. -/
def scenarioA : List Char := "Title\n\nby Author\n\n\"Hello,\" said John.".toList

/-- A project state with only the `segments` directory present. -/
def c4State : ProjState := fun d => if d = "segments" then some ["seg_000.mp3"] else none

/-- A segment list with exactly one unique voiced character. -/
def c6Segments : List Segment :=
  [⟨"dialogue".toList, "Hi.".toList, "alice".toList, "en-US-AriaNeural".toList⟩]

/-- A cast map whose only entry pins a voice and lists the reserved
speaker "unknown" as an alias. -/
def c7CastAlias : Cast :=
  { cast := [{ name := "bob".toList, voice := some "custom-pinned-voice".toList,
               aliases := ["unknown".toList] }] }

/-- The empty cast map. -/
def emptyCast : Cast := {}

/-- A dialogue segment spoken by the reserved speaker "unknown". -/
def c7Seg : Segment := ⟨"dialogue".toList, "Hi.".toList, "unknown".toList, []⟩

/-- A project with an empty parse segment list and one produced mp3. -/
def c8StateA : StatusFS := ⟨some 0, none, some ["000.mp3"], false, false, false, none⟩

/-- A project expecting five segments with no produced mp3. -/
def c8StateB : StatusFS := ⟨some 5, none, some ["readme.txt"], false, false, false, none⟩

/-- A pipeline state with every stage output missing. -/
def pipelineAllMissing : PipelineFS :=
  ⟨OutputState.missing, OutputState.missing, OutputState.missing, OutputState.missing,
   OutputState.missing, OutputState.missing, OutputState.missing⟩

/-- A string has ink when it contains a non-whitespace character; exactly
the strings whose Python strip is non-empty. -/
def ink (l : List Char) : Prop := ∃ c ∈ l, pyIsSpace c = false

/-- A well-formed accepted dialogue range: its quote has ink and does not
end in whitespace (both hold of every `strip()` result the extraction
passes store). -/
def quoteOk (r : DRange) : Prop :=
  ink r.quote ∧ ∀ p, r.quote.getLast? = some p → pyIsSpace p = false

/-! ## Claim theorems -/

-- C2 helper: voiceFor reads only speaker and type
theorem voiceFor_congr (cast : Cast) (s1 s2 : Segment)
    (hsp : s1.speaker = s2.speaker) (hty : s1.type = s2.type) :
    voiceFor cast s1 = voiceFor cast s2 := by
  cases s1 with | mk t1 x1 sp1 v1 =>
  cases s2 with | mk t2 x2 sp2 v2 =>
  change sp1 = sp2 at hsp
  change t1 = t2 at hty
  subst hsp; subst hty
  rfl

/-- Claim C2: with a fixed cast map, the voice `assign_voices` gives a
segment depends only on the segment speaker and type, not on which other
segments accompany it or on the invocation: any two calls assign
same-speaker same-type segments the identical voice, so assigning voices
to a one-segment list and to an extended list leaves the shared segment
voice unchanged. -/
theorem c2_same_speaker_same_voice (cast : Cast) (l1 l2 : List Segment) (i j : Nat) (d : Segment)
    (hi : i < l1.length) (hj : j < l2.length)
    (hsp : (l1.getD i d).speaker = (l2.getD j d).speaker)
    (hty : (l1.getD i d).type = (l2.getD j d).type) :
    ((assignVoices l1 cast).getD i d).voice = ((assignVoices l2 cast).getD j d).voice := by
  have e1 : (assignVoices l1 cast).getD i d
      = { l1.getD i d with voice := voiceFor cast (l1.getD i d) } := by
    unfold assignVoices
    rw [List.getD_eq_getElem?_getD, List.getElem?_map, List.getElem?_eq_getElem hi,
        List.getD_eq_getElem?_getD, List.getElem?_eq_getElem hi]
    rfl
  have e2 : (assignVoices l2 cast).getD j d
      = { l2.getD j d with voice := voiceFor cast (l2.getD j d) } := by
    unfold assignVoices
    rw [List.getD_eq_getElem?_getD, List.getElem?_map, List.getElem?_eq_getElem hj,
        List.getD_eq_getElem?_getD, List.getElem?_eq_getElem hj]
    rfl
  rw [e1, e2]
  exact voiceFor_congr cast _ _ hsp hty

theorem hashVoice_mem (sp : List Char) (pool : List (List Char)) (h : pool ≠ []) :
    hashVoice sp pool ∈ pool := by
  unfold hashVoice
  have hl : 0 < pool.length := List.length_pos.mpr h
  have hn : sha256Nat (utf8Bytes sp) % pool.length < pool.length := Nat.mod_lt _ hl
  rw [List.getD_eq_getElem?_getD, List.getElem?_eq_getElem hn]
  exact List.getElem_mem hn

/-- Claim C3: for every cast map the hash-fallback pool equals the fixed
voice pool minus the narrator narration and dialogue voices and minus
every explicitly pinned cast voice, with the full pool restored when that
subtraction empties it; consequently the pool indexed by the hash
fallback is never empty. -/
theorem c3_available_pool_spec (cast : Cast) :
    availablePool cast = specAvailablePool cast ∧ availablePool cast ≠ [] := by
  have hfil : VOICE_POOL.filter (fun v => !(usedVoices cast).contains v)
      = VOICE_POOL.filter (fun v =>
          !(v = cast.narratorVoice.getD NARRATOR_VOICE ||
            v = cast.narratorDialogueVoice.getD NARRATOR_DIALOGUE_VOICE ||
            (cast.cast.filterMap (fun info => info.voice)).contains v)) := by
    apply List.filter_congr
    intro v hv
    have h1 : v ≠ NARRATOR_VOICE := by
      intro h; rw [h] at hv; exact absurd hv (by decide)
    have h2 : v ≠ NARRATOR_DIALOGUE_VOICE := by
      intro h; rw [h] at hv; exact absurd hv (by decide)
    simp [usedVoices, h1, h2]
    rw [Bool.and_assoc]
  constructor
  · unfold availablePool specAvailablePool
    simp only [hfil]
  · show (if VOICE_POOL.filter (fun v => !(usedVoices cast).contains v) = [] then VOICE_POOL
      else VOICE_POOL.filter (fun v => !(usedVoices cast).contains v)) ≠ []
    by_cases h : VOICE_POOL.filter (fun v => !(usedVoices cast).contains v) = []
    · rw [if_pos h]; decide
    · rw [if_neg h]; exact h

-- C7
/-- Claim C7 (corrected): a segment whose lowercased speaker is
"narrator" is always voiced by the narrator rule path, before any alias
resolution, for every cast map; but a segment with speaker "unknown" is
passed through alias resolution and the ordinary cast-lookup/hash path
like any other non-narrator speaker, so its voice can depend on the cast
map alias entries. -/
theorem c7_reserved_speakers (cast : Cast) (seg : Segment) :
    (lowerL seg.speaker = "narrator".toList →
      voiceFor cast seg =
        (if seg.type = "dialogue".toList then cast.narratorDialogueVoice.getD NARRATOR_DIALOGUE_VOICE
         else cast.narratorVoice.getD NARRATOR_VOICE)) ∧
    (lowerL seg.speaker = "unknown".toList →
      voiceFor cast seg = nonNarratorVoice cast "unknown".toList) := by
  constructor
  · intro h
    unfold voiceFor
    rw [h]
    rfl
  · intro h
    unfold voiceFor
    rw [h]
    rfl

set_option maxRecDepth 4000 in
/-- Claim C7 as stated is false: a cast map whose alias list contains
"unknown" changes the voice assigned to an "unknown" segment. -/
theorem c7_unknown_alias_counterexample : voiceFor c7CastAlias c7Seg ≠ voiceFor emptyCast c7Seg := by
  have h1 : voiceFor c7CastAlias c7Seg = "custom-pinned-voice".toList := by decide
  have h2 : voiceFor emptyCast c7Seg
      = hashVoice "unknown".toList (availablePool emptyCast) := rfl
  have h3 : voiceFor emptyCast c7Seg ∈ VOICE_POOL := by
    rw [h2]
    have hne : availablePool emptyCast ≠ [] := by decide
    have hmem := hashVoice_mem "unknown".toList _ hne
    have hsub : availablePool emptyCast = VOICE_POOL := by decide
    rw [hsub] at hmem
    exact hmem
  intro h
  rw [h1] at h
  rw [← h] at h3
  exact absurd h3 (by decide)

-- C4
theorem invGo_fst_isSome (dirs : List String) (st : ProjState) (x : String) :
    ((invGo st dirs).1 x).isSome = (st x).isSome := by
  induction dirs generalizing st with
  | nil => rfl
  | cons d rest ih =>
    unfold invGo
    cases h : st d with
    | some v =>
      simp only []
      rw [ih]
      by_cases hx : x = d
      · subst hx; simp [h]
      · simp [hx]
    | none => exact ih st

theorem invGo_snd_eq (dirs : List String) (st : ProjState) :
    (invGo st dirs).2 = dirs.filter fun d => (st d).isSome := by
  induction dirs generalizing st with
  | nil => rfl
  | cons d rest ih =>
    unfold invGo
    cases h : st d with
    | some v =>
      simp only [List.filter_cons, h, Option.isSome_some, if_pos]
      rw [ih]
      congr 1
      apply List.filter_congr
      intro x _
      by_cases hxd : x = d
      · subst hxd; simp [h]
      · simp [hxd]
    | none =>
      rw [ih]
      simp [List.filter_cons, h]

theorem invGo_fst_eq (dirs : List String) (st : ProjState) (x : String) :
    (invGo st dirs).1 x
      = if dirs.contains x && (st x).isSome then some [] else st x := by
  induction dirs generalizing st with
  | nil => simp [invGo]
  | cons d rest ih =>
    unfold invGo
    cases h : st d with
    | some v =>
      simp only []
      rw [ih]
      by_cases hx : x = d
      · subst hx
        simp [h, List.contains_cons]
      · simp [hx, List.contains_cons]
    | none =>
      rw [ih]
      by_cases hx : x = d
      · subst hx
        simp [h]
      · simp [hx, List.contains_cons]

/-- Claim C4 (corrected): running `invalidate_downstream` twice with the
same key raises no error and leaves the project state exactly as after
the first run, and the second report equals the first (each cleared
directory is recreated empty, so it is present and reported again); the
second report is empty only when the first was. -/
theorem c4_invalidate_idempotent (st : ProjState) (key : String) :
    invalidateDownstream (invalidateDownstream st key).1 key = invalidateDownstream st key := by
  unfold invalidateDownstream
  apply Prod.ext
  · funext x
    rw [invGo_fst_eq, invGo_fst_eq]
    set c := (((INVALIDATION_MAP.find? fun p => p.1 = key).map Prod.snd).getD []).contains x
      with hcdef
    by_cases hcs : (c && (st x).isSome) = true
    · have hcs2 := hcs
      simp only [Bool.and_eq_true] at hcs2
      obtain ⟨hcx, hs⟩ := hcs2
      simp [hcs, hcx, hs]
    · rw [Bool.not_eq_true] at hcs
      simp [hcs]
  · rw [invGo_snd_eq, invGo_snd_eq]
    apply List.filter_congr
    intro d _
    rw [invGo_fst_isSome]

/-- Claim C4 as stated is false: after invalidating "voice" on a project
with an existing segments directory, the second invalidation reports a
non-empty deleted list. -/
theorem c4_second_call_counterexample :
    (invalidateDownstream (invalidateDownstream c4State "voice").1 "voice").2 ≠ [] := by
  decide

-- C5
theorem freshAgainst_iff (m : Int) (inputs : List (Option Int)) :
    freshAgainst m inputs = true ↔ ∀ t : Int, some t ∈ inputs → t ≤ m := by
  unfold freshAgainst
  by_cases h : inputs = []
  · subst h; simp
  · rw [if_neg h, List.all_eq_true]
    constructor
    · intro hall t ht
      have := hall (some t) ht
      simpa using this
    · intro hall i hi
      cases i with
      | none => rfl
      | some t => simpa using hall t hi

/-- Claim C5: for every known stage name and artifact state,
`check_step_fresh` returns true exactly when the stage output exists (a
directory must be non-empty) and no supplied input modification time is
strictly newer than the output time, a directory output using its newest
member time; with no inputs, existence alone suffices. -/
theorem c5_check_step_fresh_iff (fs : PipelineFS) (step : String) (inputs : List (Option Int))
    (_hstep : step ∈ knownSteps) :
    (checkStepFresh fs step inputs = true) ↔ SpecFresh fs step inputs := by
  clear _hstep
  unfold checkStepFresh SpecFresh
  cases ho : outputFor fs step with
  | none => simp
  | some o =>
    simp only [Option.some.injEq, exists_eq_left']
    cases o with
    | missing => simp [specFreshTime]
    | file m => simp [specFreshTime, freshAgainst_iff]
    | dir mems =>
      cases mems with
      | nil => simp [specFreshTime]
      | cons x xs => simp [specFreshTime, freshAgainst_iff]

-- C6
theorem charListL_eq (names : List (List Char)) (h : names ≠ []) :
    charListL names = specCharConjunction names := by
  match names with
  | [x] => simp [charListL, specCharConjunction]
  | [x, y] => simp [charListL, specCharConjunction]
  | x :: y :: z :: rest =>
    show charListL (x :: y :: z :: rest) = _
    unfold charListL
    rw [if_neg (by simp), if_neg (by simp)]
    rfl

/-- Claim C6 (corrected): the outro always starts with the credits line
and ends with the thank-you line, and emits the character-listing
narration line exactly when there is at least one unique
non-narrator/non-unknown speaker (not two or more as claimed): one name
stands alone, two are joined by "and", three or more are comma-separated
with "and" before the last. -/
theorem c6_outro_structure (title author : List Char) (segments : List Segment) :
    generateOutroSegments title author segments =
      [⟨"narration".toList,
        "This has been a production of ".toList ++ title ++ ", by ".toList ++ author
          ++ ",".toList,
        "narrator".toList, outroNarratorVoice segments⟩] ++
      (if charNames segments = [] then []
       else [⟨"narration".toList,
              "with ".toList ++ specCharConjunction (charNames segments) ++ ".".toList,
              "narrator".toList, outroNarratorVoice segments⟩]) ++
      [⟨"narration".toList, "Thank you for listening.".toList, "narrator".toList,
        outroNarratorVoice segments⟩] := by
  unfold generateOutroSegments
  by_cases h : charNames segments = []
  · simp [h]
  · simp only [if_neg h, charListL_eq _ h]

set_option maxRecDepth 4000 in
/-- Claim C6 as stated is false: with exactly one unique speaker the
outro still emits the "with ..." listing line. -/
theorem c6_single_character_counterexample :
    (charNames c6Segments).length < 2 ∧
    (generateOutroSegments "T".toList "A".toList c6Segments).any
      (fun seg => seg.text = "with Alice.".toList) = true := by
  decide

-- C8
/-- Claim C8 (corrected): `get_project_status` reports the tts stage as
"done" only when at least one mp3 is present, the expected count is
non-zero and the produced count reaches it; as "partial" when mp3s are
present but the expected count is zero or not yet reached; and as
"pending" when no mp3 files are present, even if the expected count is
positive. -/
theorem c8_tts_state (fs : StatusFS) :
    ((getProjectStatus fs).tts.state = "done" ↔
      0 < ttsProducedCount fs ∧ ttsExpectedCount fs ≠ 0 ∧
        ttsExpectedCount fs ≤ ttsProducedCount fs) ∧
    ((getProjectStatus fs).tts.state = "partial" ↔
      0 < ttsProducedCount fs ∧
        (ttsExpectedCount fs = 0 ∨ ttsProducedCount fs < ttsExpectedCount fs)) ∧
    ((getProjectStatus fs).tts.state = "pending" ↔ ttsProducedCount fs = 0) := by
  obtain ⟨script, castc, segdir, e, m, p, fin⟩ := fs
  cases segdir with
  | none =>
    refine ⟨?_, ?_, ?_⟩ <;>
      simp [getProjectStatus, ttsProducedCount, ttsExpectedCount]
  | some files =>
    dsimp only [getProjectStatus, ttsProducedCount, ttsExpectedCount]
    by_cases hmp : files.filter (fun f => hasSuffixL f.toList ".mp3".toList) = []
    · rw [if_pos hmp, hmp]
      refine ⟨?_, ?_, ?_⟩ <;> simp
    · rw [if_neg hmp]
      have hpos : 0 < (files.filter (fun f => hasSuffixL f.toList ".mp3".toList)).length :=
        List.length_pos.mpr hmp
      by_cases hdone : script.getD 0 ≠ 0 ∧
          (files.filter (fun f => hasSuffixL f.toList ".mp3".toList)).length ≥ script.getD 0
      · rw [if_pos hdone]
        refine ⟨?_, ?_, ?_⟩
        · simp only [true_iff, show ("done" : String) = "done" from rfl]
          exact ⟨hpos, hdone.1, hdone.2⟩
        · constructor
          · intro hst
            exact absurd hst (by decide : ¬("done" : String) = "partial")
          · rintro ⟨_, h0 | hlt⟩
            · exact absurd h0 hdone.1
            · exact absurd hlt (by omega)
        · constructor
          · intro hst
            exact absurd hst (by decide : ¬("done" : String) = "pending")
          · intro h0; exact absurd h0 (by omega)
      · rw [if_neg hdone]
        refine ⟨?_, ?_, ?_⟩
        · constructor
          · intro hst
            exact absurd hst (by decide : ¬("partial" : String) = "done")
          · rintro ⟨_, h0, hge⟩
            exact absurd ⟨h0, hge⟩ hdone
        · constructor
          · intro _
            refine ⟨hpos, ?_⟩
            by_cases h0 : script.getD 0 = 0
            · exact Or.inl h0
            · refine Or.inr ?_
              by_cases hge : script.getD 0 ≤
                  (files.filter (fun f => hasSuffixL f.toList ".mp3".toList)).length
              · exact absurd ⟨h0, hge⟩ hdone
              · omega
          · intro _; rfl
        · constructor
          · intro hst
            exact absurd hst (by decide : ¬("partial" : String) = "pending")
          · intro h0; exact absurd h0 (by omega)

set_option maxRecDepth 4000 in
/-- Claim C8 as stated is false in both directions: with produced = 1 and
expected = 0 the stage is "partial" although produced is at least
expected, and with produced = 0 and expected = 5 it is "pending" although
produced is less than expected. -/
theorem c8_tts_counterexample :
    ((getProjectStatus c8StateA).tts.state = "partial" ∧
      ttsExpectedCount c8StateA ≤ ttsProducedCount c8StateA) ∧
    ((getProjectStatus c8StateB).tts.state = "pending" ∧
      ttsProducedCount c8StateB < ttsExpectedCount c8StateB) := by
  decide

theorem mem_pyStrip (l : List Char) (c : Char) (hc : c ∈ l) (hs : pyIsSpace c = false) :
    c ∈ pyStrip l := by
  unfold pyStrip pyLStrip pyRStrip
  have h1 : c ∈ l.dropWhile pyIsSpace := by
    have hsplit := List.takeWhile_append_dropWhile pyIsSpace l
    rcases List.mem_append.mp (hsplit ▸ hc) with h | h
    · exact absurd (List.mem_takeWhile_imp h) (by simp [hs])
    · exact h
  apply List.mem_reverse.mpr
  have hsplit := List.takeWhile_append_dropWhile pyIsSpace (l.dropWhile pyIsSpace).reverse
  rcases List.mem_append.mp (hsplit ▸ List.mem_reverse.mpr h1) with h | h
  · exact absurd (List.mem_takeWhile_imp h) (by simp [hs])
  · exact h

theorem pyStrip_ne_nil_of_ink (l : List Char) (h : ink l) : pyStrip l ≠ [] := by
  obtain ⟨c, hc, hs⟩ := h
  intro he
  have hm := mem_pyStrip l c hc hs
  rw [he] at hm
  exact absurd hm (List.not_mem_nil c)

theorem ink_of_pyStrip_ne_nil (l : List Char) (h : pyStrip l ≠ []) : ink l := by
  by_contra hn
  apply h
  have hall : ∀ c ∈ l, pyIsSpace c = true := by
    intro c hc
    by_contra hcs
    exact hn ⟨c, hc, by simpa using hcs⟩
  unfold pyStrip pyLStrip
  rw [List.dropWhile_eq_nil_iff.mpr hall]
  rfl

theorem ink_pyStrip (l : List Char) (h : pyStrip l ≠ []) : ink (pyStrip l) := by
  obtain ⟨c, hc, hs⟩ := ink_of_pyStrip_ne_nil l h
  exact ⟨c, mem_pyStrip l c hc hs, hs⟩

theorem head_dropWhile_false (p : Char → Bool) (l : List Char) (a : Char) (as : List Char)
    (h : l.dropWhile p = a :: as) : p a = false := by
  induction l with
  | nil => cases h
  | cons x xs ih =>
    rw [List.dropWhile_cons] at h
    by_cases hx : p x = true
    · rw [if_pos hx] at h; exact ih h
    · rw [if_neg hx] at h
      injection h with h1 _
      subst h1
      exact eq_false_of_ne_true hx

theorem pyStrip_getLast_nonspace (l : List Char) (p : Char)
    (h : (pyStrip l).getLast? = some p) : pyIsSpace p = false := by
  unfold pyStrip pyRStrip at h
  rw [List.getLast?_reverse] at h
  cases hd : (pyLStrip l).reverse.dropWhile pyIsSpace with
  | nil => rw [hd] at h; cases h
  | cons a as =>
    rw [hd] at h
    injection h with h
    subst h
    exact head_dropWhile_false pyIsSpace _ _ _ hd

theorem mem_of_head?_eq (l : List Char) (a : Char) (h : l.head? = some a) : a ∈ l := by
  cases l with
  | nil => cases h
  | cons x xs => injection h with h; subst h; exact List.mem_cons_self x xs

theorem isSentEnd_nonspace (p : Char) (h : isSentEnd (some p) = true) : pyIsSpace p = false := by
  unfold isSentEnd at h
  rcases Bool.or_eq_true _ _ |>.mp h with h1 | h1
  · rcases Bool.or_eq_true _ _ |>.mp h1 with h2 | h2 <;>
      · rw [show p = _ from by exact_mod_cast of_decide_eq_true h2]; rfl
  · rw [show p = _ from by exact_mod_cast of_decide_eq_true h1]; rfl

theorem sentSplitGo_ink (cs : List Char) : ∀ (skip : Bool) (prev : Option Char) (acc : List Char),
    (cs = [] → ink acc) →
    (∀ p, cs.getLast? = some p → pyIsSpace p = false) →
    (∀ p, prev = some p → acc.head? = some p) →
    ∀ f ∈ sentSplitGo skip prev acc cs, ink f := by
  induction cs with
  | nil =>
    intro skip prev acc h1 _ _ f hf
    have hg : sentSplitGo skip prev acc [] = [acc.reverse] := by cases skip <;> rfl
    rw [hg, List.mem_singleton] at hf
    subst hf
    obtain ⟨c, hc, hs⟩ := h1 rfl
    exact ⟨c, List.mem_reverse.mpr hc, hs⟩
  | cons c rest ih =>
    intro skip prev acc h1 h2 h3 f hf
    have hrest_last : ∀ p, rest.getLast? = some p → pyIsSpace p = false := by
      intro p hp
      cases rest with
      | nil => cases hp
      | cons y ys => exact h2 p (by rw [List.getLast?_cons_cons]; exact hp)
    have hlast_single : rest = [] → pyIsSpace c = false := by
      intro he
      subst he
      exact h2 c rfl
    cases skip with
    | true =>
      rw [show sentSplitGo true prev acc (c :: rest)
          = (if pyIsSpace c then sentSplitGo true none acc rest
             else sentSplitGo false (some c) (c :: acc) rest) from rfl] at hf
      by_cases hc : pyIsSpace c = true
      · rw [if_pos hc] at hf
        have hne : rest ≠ [] := by
          intro he
          rw [hlast_single he] at hc
          cases hc
        exact ih true none acc (fun he => absurd he hne) hrest_last
          (fun p hp => by cases hp) f hf
      · rw [if_neg (by simpa using hc)] at hf
        have hcf : pyIsSpace c = false := eq_false_of_ne_true hc
        exact ih false (some c) (c :: acc)
          (fun _ => ⟨c, List.mem_cons_self c acc, hcf⟩) hrest_last
          (fun p hp => by injection hp with hp; subst hp; rfl) f hf
    | false =>
      rw [show sentSplitGo false prev acc (c :: rest)
          = (if pyIsSpace c && isSentEnd prev then
               acc.reverse :: sentSplitGo true none [] rest
             else sentSplitGo false (some c) (c :: acc) rest) from rfl] at hf
      by_cases hsep : (pyIsSpace c && isSentEnd prev) = true
      · rw [if_pos hsep] at hf
        obtain ⟨hcs, hse⟩ := Bool.and_eq_true _ _ |>.mp hsep
        rcases List.mem_cons.mp hf with hfe | hf2
        · subst hfe
          cases prev with
          | none => cases hse
          | some p =>
            have hhd := h3 p rfl
            exact ⟨p, List.mem_reverse.mpr (mem_of_head?_eq acc p hhd),
              isSentEnd_nonspace p hse⟩
        · have hne : rest ≠ [] := by
            intro he
            rw [hlast_single he] at hcs
            cases hcs
          exact ih true none [] (fun he => absurd he hne) hrest_last
            (fun p hp => by cases hp) f hf2
      · rw [if_neg hsep] at hf
        refine ih false (some c) (c :: acc) ?_ hrest_last ?_ f hf
        · intro he
          exact ⟨c, List.mem_cons_self c acc, hlast_single he⟩
        · intro p hp
          injection hp with hp
          subst hp
          rfl

theorem chunkGo_ink (sents : List (List Char)) :
    ∀ (thr : Nat) (current : List Char) (chunks : List (List Char)),
    (∀ s ∈ sents, ink s) → (current ≠ [] → ink current) → (∀ k ∈ chunks, ink k) →
    ∀ k ∈ chunkGo thr current chunks sents, ink k := by
  induction sents with
  | nil =>
    intro thr current chunks _ hcur hch k hk
    unfold chunkGo at hk
    by_cases hp : pyStrip current ≠ []
    · rw [if_pos hp] at hk
      rcases List.mem_append.mp hk with h | h
      · exact hch k h
      · rw [List.mem_singleton] at h
        subst h
        exact ink_pyStrip current hp
    · rw [if_neg hp] at hk
      exact hch k hk
  | cons sent rest ih =>
    intro thr current chunks hs hcur hch k hk
    unfold chunkGo at hk
    by_cases hflush : (current ≠ [] && decide (current.length + sent.length + 1 > thr)) = true
    · rw [if_pos hflush] at hk
      have hcne : current ≠ [] := by
        have := (Bool.and_eq_true _ _ |>.mp hflush).1
        simpa using this
      refine ih thr sent (chunks ++ [pyStrip current])
        (fun s hs2 => hs s (List.mem_cons_of_mem _ hs2))
        (fun _ => hs sent (List.mem_cons_self _ _)) ?_ k hk
      intro k2 hk2
      rcases List.mem_append.mp hk2 with h | h
      · exact hch k2 h
      · rw [List.mem_singleton] at h
        subst h
        obtain ⟨c, hc, hcs⟩ := hcur hcne
        exact ⟨c, mem_pyStrip current c hc hcs, hcs⟩
    · rw [if_neg hflush] at hk
      refine ih thr _ chunks (fun s hs2 => hs s (List.mem_cons_of_mem _ hs2)) ?_ hch k hk
      intro hne
      by_cases hc : current ≠ []
      · rw [if_pos hc]
        obtain ⟨c, hcm, hcs⟩ := hs sent (List.mem_cons_self _ _)
        exact ⟨c, mem_pyStrip _ c (List.mem_append.mpr (Or.inr (List.mem_cons_of_mem _ hcm))) hcs, hcs⟩
      · rw [if_neg hc]
        exact hs sent (List.mem_cons_self _ _)

theorem splitLongSegment_strip_ne (t : List Char) (thr : Nat)
    (hink : ink t) (hlast : ∀ p, t.getLast? = some p → pyIsSpace p = false) :
    ∀ c ∈ splitLongSegment t thr, pyStrip c ≠ [] := by
  intro c hc
  unfold splitLongSegment at hc
  by_cases hlen : t.length ≤ thr
  · rw [if_pos hlen, List.mem_singleton] at hc
    subst hc
    exact pyStrip_ne_nil_of_ink _ hink
  · rw [if_neg hlen] at hc
    have hchunks : ∀ k ∈ chunkGo thr [] [] (sentenceSplit t), ink k := by
      refine chunkGo_ink (sentenceSplit t) thr [] [] ?_ (fun h => absurd rfl h)
        (fun k hk => absurd hk (List.not_mem_nil k))
      intro s hsm
      refine sentSplitGo_ink t false none [] ?_ hlast (fun p hp => by cases hp) s hsm
      intro he
      subst he
      obtain ⟨x, hx, _⟩ := hink
      exact absurd hx (List.not_mem_nil x)
    by_cases hemp : chunkGo thr [] [] (sentenceSplit t) = []
    · rw [if_pos hemp, List.mem_singleton] at hc
      subst hc
      exact pyStrip_ne_nil_of_ink _ hink
    · rw [if_neg hemp] at hc
      exact pyStrip_ne_nil_of_ink c (hchunks c hc)

theorem quoteOk_of_strip (g : List Char) (h : pyStrip g ≠ []) (s e : Nat) (sp : List Char) :
    quoteOk ⟨s, e, pyStrip g, sp⟩ := by
  exact ⟨ink_pyStrip g h, fun p hp => pyStrip_getLast_nonspace g p hp⟩

theorem foldl_add_quoteOk (f : List DRange → RawMatch → List DRange)
    (hpres : ∀ acc m, (∀ r ∈ acc, quoteOk r) → ∀ r ∈ f acc m, quoteOk r)
    (ms : List RawMatch) : ∀ acc, (∀ r ∈ acc, quoteOk r) → ∀ r ∈ ms.foldl f acc, quoteOk r := by
  induction ms with
  | nil => intro acc h r hr; exact h r hr
  | cons m rest ih =>
    intro acc h r hr
    exact ih (f acc m) (hpres acc m h) r hr

theorem addFPP_quoteOk (acc : List DRange) (m : RawMatch)
    (h : ∀ r ∈ acc, quoteOk r) : ∀ r ∈ addFPP acc m, quoteOk r := by
  intro r hr
  unfold addFPP at hr
  by_cases hq : pyStrip m.g1 ≠ []
  · rw [if_pos hq] at hr
    rcases List.mem_append.mp hr with h2 | h2
    · exact h r h2
    · rw [List.mem_singleton] at h2
      subst h2
      exact quoteOk_of_strip m.g1 hq _ _ _
  · rw [if_neg hq] at hr
    exact h r hr

theorem addChecked_quoteOk (qf : Bool) (acc : List DRange) (m : RawMatch)
    (h : ∀ r ∈ acc, quoteOk r) : ∀ r ∈ addChecked qf acc m, quoteOk r := by
  intro r hr
  unfold addChecked at hr
  by_cases hq : pyStrip (if qf then m.g1 else m.g2) ≠ []
  · rw [if_pos hq] at hr
    by_cases hov : overlapsAny acc m.start m.stop = true
    · rw [if_pos hov] at hr
      exact h r hr
    · rw [if_neg hov] at hr
      rcases List.mem_append.mp hr with h2 | h2
      · exact h r h2
      · rw [List.mem_singleton] at h2
        subst h2
        exact quoteOk_of_strip _ hq _ _ _
  · rw [if_neg hq] at hr
    exact h r hr

theorem addUnknown_quoteOk (acc : List DRange) (m : RawMatch)
    (h : ∀ r ∈ acc, quoteOk r) : ∀ r ∈ addUnknown acc m, quoteOk r := by
  intro r hr
  unfold addUnknown at hr
  by_cases hq : pyStrip m.g1 ≠ []
  · rw [if_pos hq] at hr
    rcases List.mem_append.mp hr with h2 | h2
    · exact h r h2
    · rw [List.mem_singleton] at h2
      subst h2
      exact quoteOk_of_strip m.g1 hq _ _ _
  · rw [if_neg hq] at hr
    exact h r hr

theorem mem_insertByStart (x r : DRange) (l : List DRange) (h : x ∈ insertByStart r l) :
    x = r ∨ x ∈ l := by
  induction l with
  | nil =>
    rw [show insertByStart r [] = [r] from rfl, List.mem_singleton] at h
    exact Or.inl h
  | cons y ys ih =>
    unfold insertByStart at h
    by_cases hc : y.start ≤ r.start
    · rw [if_pos hc] at h
      rcases List.mem_cons.mp h with h2 | h2
      · exact Or.inr (List.mem_cons.mpr (Or.inl h2))
      · rcases ih h2 with h3 | h3
        · exact Or.inl h3
        · exact Or.inr (List.mem_cons.mpr (Or.inr h3))
    · rw [if_neg hc] at h
      rcases List.mem_cons.mp h with h2 | h2
      · exact Or.inl h2
      · exact Or.inr h2

theorem mem_sortByStart (x : DRange) (l : List DRange) (h : x ∈ sortByStart l) : x ∈ l := by
  unfold sortByStart at h
  suffices hgen : ∀ (l2 : List DRange) (acc : List DRange),
      x ∈ l2.foldl (fun acc r => insertByStart r acc) acc → x ∈ acc ∨ x ∈ l2 by
    rcases hgen l [] h with h2 | h2
    · exact absurd h2 (List.not_mem_nil x)
    · exact h2
  intro l2
  induction l2 with
  | nil => intro acc h2; exact Or.inl h2
  | cons y ys ih =>
    intro acc h2
    rcases ih (insertByStart y acc) h2 with h3 | h3
    · rcases mem_insertByStart x y acc h3 with h4 | h4
      · exact Or.inr (List.mem_cons.mpr (Or.inl h4))
      · exact Or.inl h4
    · exact Or.inr (List.mem_cons.mpr (Or.inr h3))

theorem emitNarration_strip_ne (y : List Char) (h : pyStrip y ≠ []) :
    ∀ seg ∈ emitNarration (pyStrip y), pyStrip seg.text ≠ [] := by
  intro seg hseg
  unfold emitNarration at hseg
  obtain ⟨chunk, hchunk, heq⟩ := List.mem_map.mp hseg
  subst heq
  exact splitLongSegment_strip_ne (pyStrip y) _ (ink_pyStrip y h)
    (fun p hp => pyStrip_getLast_nonspace y p hp) chunk hchunk

theorem extractLoop_nil_eq (text : List Char) (pos : Nat) :
    extractLoop text pos [] =
      (if pyStrip (text.drop pos) ≠ [] then
         (if pyStrip (subLeadAttr (pyStrip (text.drop pos))) ≠ [] then
            emitNarration (pyStrip (subLeadAttr (pyStrip (text.drop pos)))) else [])
       else []) := rfl

theorem extractLoop_cons_eq (text : List Char) (pos : Nat) (r : DRange) (rest : List DRange) :
    extractLoop text pos (r :: rest) =
      ((if pyStrip (pyRStripSet ".,;:!?—- ".toList
            (pyStrip (subTrailAttr (pyStrip ((text.take r.start).drop pos))))) ≠ [] then
          emitNarration (pyStrip (pyRStripSet ".,;:!?—- ".toList
            (pyStrip (subTrailAttr (pyStrip ((text.take r.start).drop pos))))))
        else []) ++
        ((splitLongSegment r.quote).map fun chunk =>
          (⟨"dialogue".toList, chunk, r.speaker, []⟩ : Segment)) ++
        extractLoop text r.stop rest) := rfl

theorem extractLoop_strip_ne (ranges : List DRange) : ∀ (text : List Char) (pos : Nat),
    (∀ r ∈ ranges, quoteOk r) →
    ∀ seg ∈ extractLoop text pos ranges, pyStrip seg.text ≠ [] := by
  induction ranges with
  | nil =>
    intro text pos _ seg hseg
    rw [extractLoop_nil_eq] at hseg
    by_cases hpost : pyStrip (text.drop pos) ≠ []
    · rw [if_pos hpost] at hseg
      by_cases hcl : pyStrip (subLeadAttr (pyStrip (text.drop pos))) ≠ []
      · rw [if_pos hcl] at hseg
        exact emitNarration_strip_ne _ hcl seg hseg
      · rw [if_neg hcl] at hseg
        exact absurd hseg (List.not_mem_nil seg)
    · rw [if_neg hpost] at hseg
      exact absurd hseg (List.not_mem_nil seg)
  | cons r rest ih =>
    intro text pos hq seg hseg
    rw [extractLoop_cons_eq] at hseg
    rcases List.mem_append.mp hseg with h1 | h2
    · rcases List.mem_append.mp h1 with h3 | h4
      · by_cases hb : pyStrip (pyRStripSet ".,;:!?—- ".toList
            (pyStrip (subTrailAttr (pyStrip ((text.take r.start).drop pos))))) ≠ []
        · rw [if_pos hb] at h3
          exact emitNarration_strip_ne _ hb seg h3
        · rw [if_neg hb] at h3
          exact absurd h3 (List.not_mem_nil seg)
      · obtain ⟨chunk, hchunk, heq⟩ := List.mem_map.mp h4
        subst heq
        have hqr := hq r (List.mem_cons_self r rest)
        exact splitLongSegment_strip_ne r.quote _ hqr.1 hqr.2 chunk hchunk
    · exact ih text r.stop (fun r2 hr2 => hq r2 (List.mem_cons_of_mem r hr2)) seg h2

theorem extractFromParagraph_strip_ne (par : List Char) :
    ∀ seg ∈ extractFromParagraph par, pyStrip seg.text ≠ [] := by
  intro seg hseg
  unfold extractFromParagraph at hseg
  by_cases he : pyStrip par = []
  · rw [if_pos he] at hseg
    exact absurd hseg (List.not_mem_nil seg)
  · rw [if_neg he] at hseg
    dsimp only [] at hseg
    have h1 : ∀ r ∈ (finditer matchFPPAt ((pyStrip par).length + 1) 0 (pyStrip par)).foldl
        addFPP [], quoteOk r :=
      foldl_add_quoteOk addFPP addFPP_quoteOk _ [] (fun r hr => absurd hr (List.not_mem_nil r))
    have h2 := foldl_add_quoteOk (addChecked true) (addChecked_quoteOk true)
      (finditer matchPostAt ((pyStrip par).length + 1) 0 (pyStrip par)) _ h1
    have h3 := foldl_add_quoteOk (addChecked false) (addChecked_quoteOk false)
      (finditer matchPreAt ((pyStrip par).length + 1) 0 (pyStrip par)) _ h2
    by_cases hr3 : (((finditer matchPreAt ((pyStrip par).length + 1) 0 (pyStrip par)).foldl
        (addChecked false)
        (((finditer matchPostAt ((pyStrip par).length + 1) 0 (pyStrip par)).foldl
          (addChecked true)
          (((finditer matchFPPAt ((pyStrip par).length + 1) 0 (pyStrip par)).foldl
            addFPP []))))) = [])
    · rw [if_pos hr3] at hseg
      have h4 : ∀ r ∈ (finditer matchDialogueAt ((pyStrip par).length + 1) 0
          (pyStrip par)).foldl addUnknown [], quoteOk r :=
        foldl_add_quoteOk addUnknown addUnknown_quoteOk _ []
          (fun r hr => absurd hr (List.not_mem_nil r))
      by_cases hr4 : ((finditer matchDialogueAt ((pyStrip par).length + 1) 0
          (pyStrip par)).foldl addUnknown []) = []
      · rw [if_pos hr4] at hseg
        exact emitNarration_strip_ne par he seg hseg
      · rw [if_neg hr4] at hseg
        exact extractLoop_strip_ne _ (pyStrip par) 0
          (fun r hr => h4 r (mem_sortByStart r _ hr)) seg hseg
    · rw [if_neg hr3] at hseg
      rw [if_neg hr3] at hseg
      exact extractLoop_strip_ne _ (pyStrip par) 0
        (fun r hr => h3 r (mem_sortByStart r _ hr)) seg hseg

/-- Claim C9: every segment produced by `parse_story` has text whose
whitespace-trimmed form is non-empty, through long-segment splitting as
well, and a whitespace-only paragraph contributes no segments. -/
theorem c9_parse_story_nonblank (text : List Char) :
    (∀ seg ∈ parseStory text, pyStrip seg.text ≠ []) ∧
    (∀ para : List Char, pyStrip para = [] → extractFromParagraph para = []) := by
  constructor
  · intro seg hseg
    unfold parseStory at hseg
    obtain ⟨l, hl, hsegl⟩ := List.mem_flatten.mp hseg
    obtain ⟨para, _, heq⟩ := List.mem_map.mp hl
    by_cases hp : pyStrip para = []
    · rw [if_pos hp] at heq
      subst heq
      exact absurd hsegl (List.not_mem_nil seg)
    · rw [if_neg hp] at heq
      subst heq
      exact extractFromParagraph_strip_ne (pyStrip para) seg hsegl
  · intro para hp
    simp [extractFromParagraph, hp]

-- C10
theorem headerIdxGo_ge (ps : List (List Char)) : ∀ (i k : Nat), k ≤ i →
    k ≤ headerIdxGo i k ps := by
  induction ps with
  | nil => intro i k _; exact le_refl k
  | cons p rest ih =>
    intro i k hki
    unfold headerIdxGo
    by_cases hs : pyStrip p = []
    · rw [if_pos hs]
      exact ih (i + 1) k (le_trans hki (Nat.le_succ i))
    · rw [if_neg hs]
      by_cases hm : isMetaPara i (linesOf (pyStrip p)) = true
      · rw [if_pos hm]
        exact le_trans (le_trans hki (Nat.le_succ i)) (ih (i + 1) (i + 1) (le_refl _))
      · rw [if_neg hm]

theorem parasGo_head (cs : List Char) : ∀ (mode : Option (List Char)) (acc : List Char),
    ∃ t rest2, parasGo mode acc cs = (acc.reverse ++ t) :: rest2 := by
  induction cs with
  | nil =>
    intro mode acc
    cases mode with
    | none => exact ⟨[], [], by simp [parasGo]⟩
    | some pend =>
      by_cases hsep : ((pend.reverse.drop 1).contains '\n') = true
      · refine ⟨[], [(pend.reverse.reverse.takeWhile fun x => x ≠ '\n').reverse], ?_⟩
        rw [show parasGo (some pend) acc []
            = (if (pend.reverse.drop 1).contains '\n' then
                 [acc.reverse, (pend.reverse.reverse.takeWhile fun x => x ≠ '\n').reverse]
               else [acc.reverse ++ pend.reverse]) from rfl, if_pos hsep]
        simp
      · refine ⟨pend.reverse, [], ?_⟩
        rw [show parasGo (some pend) acc []
            = (if (pend.reverse.drop 1).contains '\n' then
                 [acc.reverse, (pend.reverse.reverse.takeWhile fun x => x ≠ '\n').reverse]
               else [acc.reverse ++ pend.reverse]) from rfl, if_neg hsep]
  | cons c cs2 ih =>
    intro mode acc
    cases mode with
    | none =>
      by_cases hc : c = '\n'
      · subst hc
        rw [show parasGo none acc ('\n' :: cs2) = parasGo (some ['\n']) acc cs2 from rfl]
        exact ih (some ['\n']) acc
      · rw [show parasGo none acc (c :: cs2) = parasGo none (c :: acc) cs2 from by
            rw [show parasGo none acc (c :: cs2)
                = (if c = '\n' then parasGo (some ['\n']) acc cs2
                   else parasGo none (c :: acc) cs2) from rfl, if_neg hc]]
        obtain ⟨t, rest2, hpg⟩ := ih none (c :: acc)
        refine ⟨c :: t, rest2, ?_⟩
        rw [hpg]
        simp
    | some pend =>
      by_cases hsp : pyIsSpace c = true
      · rw [show parasGo (some pend) acc (c :: cs2)
            = (if pyIsSpace c then parasGo (some (c :: pend)) acc cs2
               else
                 if (pend.reverse.drop 1).contains '\n' then
                   acc.reverse :: parasGo none
                     (c :: ((pend.reverse.reverse.takeWhile fun x => x ≠ '\n').reverse).reverse) cs2
                 else parasGo none (c :: (pend ++ acc)) cs2) from rfl, if_pos hsp]
        exact ih (some (c :: pend)) acc
      · rw [show parasGo (some pend) acc (c :: cs2)
            = (if pyIsSpace c then parasGo (some (c :: pend)) acc cs2
               else
                 if (pend.reverse.drop 1).contains '\n' then
                   acc.reverse :: parasGo none
                     (c :: ((pend.reverse.reverse.takeWhile fun x => x ≠ '\n').reverse).reverse) cs2
                 else parasGo none (c :: (pend ++ acc)) cs2) from rfl,
          if_neg (by simpa using hsp)]
        by_cases hsep : ((pend.reverse.drop 1).contains '\n') = true
        · rw [if_pos hsep]
          refine ⟨[], parasGo none
            (c :: ((pend.reverse.reverse.takeWhile fun x => x ≠ '\n').reverse).reverse) cs2, ?_⟩
          simp
        · rw [if_neg hsep]
          obtain ⟨t, rest2, hpg⟩ := ih none (c :: (pend ++ acc))
          refine ⟨pend.reverse ++ c :: t, rest2, ?_⟩
          rw [hpg]
          simp

theorem pyStrip_head_nonspace (l : List Char) (c : Char) (cs : List Char)
    (h : pyStrip l = c :: cs) : pyIsSpace c = false := by
  unfold pyStrip pyRStrip at h
  have h2 : (pyLStrip l).reverse.dropWhile pyIsSpace = (c :: cs).reverse := by
    rw [← h]
    simp
  have hwne : (c :: cs).reverse ≠ [] := by simp
  have hsplit := List.takeWhile_append_dropWhile pyIsSpace (pyLStrip l).reverse
  have hlast : (pyLStrip l).reverse.getLast? = ((c :: cs).reverse).getLast? := by
    conv_lhs => rw [← hsplit, h2]
    exact List.getLast?_append_of_ne_nil _ hwne
  rw [List.getLast?_reverse, List.getLast?_reverse] at hlast
  have hhd : (pyLStrip l).head? = some c := by
    rw [hlast]
    rfl
  cases hl : pyLStrip l with
  | nil => rw [hl] at hhd; cases hhd
  | cons a as =>
    rw [hl] at hhd
    injection hhd with hhd
    subst hhd
    exact head_dropWhile_false pyIsSpace l a as hl

/-- Claim C10: whenever the first paragraph of the (stripped) input has
at most two lines, the header stripper consumes it as metadata, so
`parse_story` works on a body that drops at least that first paragraph —
even when no "by" line exists and the paragraph is ordinary prose. -/
theorem c10_short_first_paragraph_stripped (text : List Char) (hne : pyStrip text ≠ [])
    (hlines : (linesOf (pyStrip ((splitParagraphs (pyStrip text)).headD []))).length ≤ 2) :
    ∃ k, 1 ≤ k ∧
      stripMetadataHeader text
        = joinSep "\n\n".toList ((splitParagraphs (pyStrip text)).drop k) ∧
      parseStory text
        = ((splitParagraphs (joinSep "\n\n".toList
            ((splitParagraphs (pyStrip text)).drop k))).map
            fun para =>
              if pyStrip para = [] then [] else extractFromParagraph (pyStrip para)).flatten := by
  obtain ⟨c, cs, hct⟩ : ∃ c cs, pyStrip text = c :: cs := by
    cases hpt : pyStrip text with
    | nil => exact absurd hpt hne
    | cons a as => exact ⟨a, as, rfl⟩
  have hcns : pyIsSpace c = false := pyStrip_head_nonspace text c cs hct
  have hcnl : c ≠ '\n' := by
    intro he
    subst he
    cases hcns
  obtain ⟨t, rest2, hpg⟩ := parasGo_head cs none [c]
  have hparas : splitParagraphs (pyStrip text) = (c :: t) :: rest2 := by
    rw [hct]
    unfold splitParagraphs
    rw [show parasGo none [] (c :: cs)
        = (if c = '\n' then parasGo (some ['\n']) [] cs
           else parasGo none [c] cs) from rfl, if_neg hcnl, hpg]
    rfl
  have hp0 : (splitParagraphs (pyStrip text)).headD [] = c :: t := by
    rw [hparas]
    rfl
  have hp0strip : pyStrip (c :: t) ≠ [] :=
    pyStrip_ne_nil_of_ink _ ⟨c, List.mem_cons_self c t, hcns⟩
  have hmeta : isMetaPara 0 (linesOf (pyStrip (c :: t))) = true := by
    apply List.all_eq_true.mpr
    intro line _
    have hlen : decide ((linesOf (pyStrip (c :: t))).length ≤ 2) = true := by
      rw [decide_eq_true_eq]
      rw [hp0] at hlines
      exact hlines
    rw [show (decide ((0 : Nat) = 0)) = true from rfl, hlen]
    simp
  have hidx : headerIdxGo 0 0 ((c :: t) :: rest2) = headerIdxGo 1 1 rest2 := by
    rw [show headerIdxGo 0 0 ((c :: t) :: rest2)
        = (if pyStrip (c :: t) = [] then headerIdxGo 1 0 rest2
           else if isMetaPara 0 (linesOf (pyStrip (c :: t))) = true then headerIdxGo 1 1 rest2
           else 0) from rfl, if_neg hp0strip, if_pos hmeta]
  have hsm : stripMetadataHeader text
      = joinSep "\n\n".toList (((c :: t) :: rest2).drop (headerIdxGo 1 1 rest2)) := by
    rw [show stripMetadataHeader text
        = joinSep "\n\n".toList ((splitParagraphs (pyStrip text)).drop
            (headerIdxGo 0 0 (splitParagraphs (pyStrip text)))) from rfl, hparas, hidx]
  refine ⟨headerIdxGo 1 1 rest2, headerIdxGo_ge rest2 1 1 (le_refl 1), ?_, ?_⟩
  · rw [hsm, hparas]
  · rw [show parseStory text
        = ((splitParagraphs (stripMetadataHeader text)).map
            fun para =>
              if pyStrip para = [] then [] else extractFromParagraph (pyStrip para)).flatten
        from rfl, hsm, hparas]

set_option maxRecDepth 4000 in
/-- Claim C1 as stated is false: the parsed dialogue text keeps the comma
captured inside the quotes; it is not "Hello." with a period. -/
theorem c1_scenario_counterexample :
    ¬ (extractMetadata scenarioA = ("Title".toList, "Author".toList) ∧
       parseStory scenarioA =
         [{ type := "dialogue".toList, text := "Hello.".toList, speaker := "john".toList,
            voice := [] }]) := by
  decide

set_option maxRecDepth 4000 in
/-- Claim C1 (corrected): for the scenario input the metadata extractor
returns title "Title" and author "Author", and parsing yields exactly one
segment, a dialogue segment with speaker "john" whose text is "Hello,"
(the comma captured inside the quotes is kept verbatim). -/
theorem c1_scenario_parse :
    extractMetadata scenarioA = ("Title".toList, "Author".toList) ∧
    parseStory scenarioA =
      [{ type := "dialogue".toList, text := "Hello,".toList, speaker := "john".toList,
         voice := [] }] := by
  decide

/-- Witness for claim C2 at the concrete alice and alice-bob lists. -/
theorem c2_same_speaker_same_voice_witness :
    0 < ([⟨"dialogue".toList, "Hi.".toList, "alice".toList, []⟩] : List Segment).length ∧
    0 < ([⟨"dialogue".toList, "Hi.".toList, "alice".toList, []⟩,
          ⟨"dialogue".toList, "Yo.".toList, "bob".toList, []⟩] : List Segment).length ∧
    (([⟨"dialogue".toList, "Hi.".toList, "alice".toList, []⟩] : List Segment).getD 0
        ⟨[], [], [], []⟩).speaker
      = (([⟨"dialogue".toList, "Hi.".toList, "alice".toList, []⟩,
           ⟨"dialogue".toList, "Yo.".toList, "bob".toList, []⟩] : List Segment).getD 0
          ⟨[], [], [], []⟩).speaker ∧
    (([⟨"dialogue".toList, "Hi.".toList, "alice".toList, []⟩] : List Segment).getD 0
        ⟨[], [], [], []⟩).type
      = (([⟨"dialogue".toList, "Hi.".toList, "alice".toList, []⟩,
           ⟨"dialogue".toList, "Yo.".toList, "bob".toList, []⟩] : List Segment).getD 0
          ⟨[], [], [], []⟩).type ∧
    ((assignVoices [⟨"dialogue".toList, "Hi.".toList, "alice".toList, []⟩] emptyCast).getD 0
        ⟨[], [], [], []⟩).voice
      = ((assignVoices [⟨"dialogue".toList, "Hi.".toList, "alice".toList, []⟩,
          ⟨"dialogue".toList, "Yo.".toList, "bob".toList, []⟩] emptyCast).getD 0
          ⟨[], [], [], []⟩).voice :=
  ⟨by decide, by decide, by decide, by decide,
    c2_same_speaker_same_voice emptyCast _ _ 0 0 ⟨[], [], [], []⟩
      (by decide) (by decide) (by decide) (by decide)⟩

/-- Witness for claim C3 at the empty cast map. -/
theorem c3_available_pool_spec_witness :
    availablePool emptyCast = specAvailablePool emptyCast ∧ availablePool emptyCast ≠ [] :=
  c3_available_pool_spec emptyCast

/-- Witness for claim C5 at the all-missing pipeline state and the parse
stage. -/
theorem c5_check_step_fresh_iff_witness :
    "parse" ∈ knownSteps ∧
    (checkStepFresh pipelineAllMissing "parse" [] = true ↔
      SpecFresh pipelineAllMissing "parse" []) :=
  ⟨by decide, c5_check_step_fresh_iff pipelineAllMissing "parse" [] (by decide)⟩

/-- Witness for claim C7 at concrete narrator and unknown segments over
the empty cast map. -/
theorem c7_reserved_speakers_witness :
    (lowerL ("Narrator".toList) = "narrator".toList ∧
     voiceFor emptyCast ⟨"narration".toList, "Hi.".toList, "Narrator".toList, []⟩ =
       (if (⟨"narration".toList, "Hi.".toList, "Narrator".toList, []⟩ : Segment).type
            = "dialogue".toList
        then emptyCast.narratorDialogueVoice.getD NARRATOR_DIALOGUE_VOICE
        else emptyCast.narratorVoice.getD NARRATOR_VOICE)) ∧
    (lowerL c7Seg.speaker = "unknown".toList ∧
     voiceFor emptyCast c7Seg = nonNarratorVoice emptyCast "unknown".toList) :=
  ⟨⟨by decide,
     (c7_reserved_speakers emptyCast ⟨"narration".toList, "Hi.".toList, "Narrator".toList, []⟩).1
       (by decide)⟩,
   ⟨by decide, (c7_reserved_speakers emptyCast c7Seg).2 (by decide)⟩⟩

/-- Witness for claim C8 at the one-mp3, zero-expected project state. -/
theorem c8_tts_state_witness :
    ((getProjectStatus c8StateA).tts.state = "done" ↔
      0 < ttsProducedCount c8StateA ∧ ttsExpectedCount c8StateA ≠ 0 ∧
        ttsExpectedCount c8StateA ≤ ttsProducedCount c8StateA) ∧
    ((getProjectStatus c8StateA).tts.state = "partial" ↔
      0 < ttsProducedCount c8StateA ∧
        (ttsExpectedCount c8StateA = 0 ∨ ttsProducedCount c8StateA < ttsExpectedCount c8StateA)) ∧
    ((getProjectStatus c8StateA).tts.state = "pending" ↔ ttsProducedCount c8StateA = 0) :=
  c8_tts_state c8StateA

set_option maxRecDepth 4000 in
/-- Witness for claim C9 at a concrete two-paragraph story and a
whitespace-only paragraph. -/
theorem c9_parse_story_nonblank_witness :
    ((⟨"narration".toList, "Hello world.".toList, "narrator".toList, []⟩ : Segment)
        ∈ parseStory "Head.\n\nHello world.".toList ∧
     pyStrip (⟨"narration".toList, "Hello world.".toList, "narrator".toList,
        []⟩ : Segment).text ≠ []) ∧
    (pyStrip " ".toList = [] ∧ extractFromParagraph " ".toList = []) :=
  ⟨⟨by decide,
     (c9_parse_story_nonblank "Head.\n\nHello world.".toList).1 _ (by decide)⟩,
   ⟨by decide, (c9_parse_story_nonblank []).2 " ".toList (by decide)⟩⟩

set_option maxRecDepth 4000 in
/-- Witness for claim C10 at a concrete two-paragraph prose text with a
one-line first paragraph and no "by" line. -/
theorem c10_short_first_paragraph_stripped_witness :
    pyStrip "First line prose.\n\nSecond paragraph stays.".toList ≠ [] ∧
    (linesOf (pyStrip ((splitParagraphs
        (pyStrip "First line prose.\n\nSecond paragraph stays.".toList)).headD []))).length ≤ 2 ∧
    (∃ k, 1 ≤ k ∧
      stripMetadataHeader "First line prose.\n\nSecond paragraph stays.".toList
        = joinSep "\n\n".toList ((splitParagraphs
            (pyStrip "First line prose.\n\nSecond paragraph stays.".toList)).drop k) ∧
      parseStory "First line prose.\n\nSecond paragraph stays.".toList
        = ((splitParagraphs (joinSep "\n\n".toList
            ((splitParagraphs
              (pyStrip "First line prose.\n\nSecond paragraph stays.".toList)).drop k))).map
            fun para =>
              if pyStrip para = [] then []
              else extractFromParagraph (pyStrip para)).flatten) :=
  ⟨by decide, by decide,
    c10_short_first_paragraph_stripped "First line prose.\n\nSecond paragraph stays.".toList
      (by decide) (by decide)⟩
